import Mathlib

/- Shallow embedding of the `rs_wavefront_obj_parser` library (`src/lib.rs`).

   Modelling conventions, used uniformly below:
   * Rust strings are modelled as `List Char`; `String` values enter through
     `String.data`.
   * `f32` values are modelled exactly: a decoded float literal is kept as
     the decimal number `Dec` it denotes (an integer mantissa over a power
     of ten), with rational value `Dec.val`.  The standard-library float
     decoding (`str::parse::<f32>`) is modelled by an exact reader for the
     finite-literal grammar (the `inf`/`nan` spellings are omitted), and
     fixed-precision float formatting is modelled by exact decimal rounding.
   * `u32` values are modelled as naturals below `2 ^ 32`; the `u32`
     subtraction performed on face indices is modelled by the explicit
     wrapping subtraction `wrapSub` (release-build semantics).
   * A Rust panic (in this code: indexing `symbols[0]` on an empty token
     vector) is modelled by the `PResult.abort` outcome.
   * Error payloads (the formatted messages built with `format!`) are
     modelled by the offending token. -/

/-- An exact decimal number: the value `m / 10 ^ d`.  This is the shallow
model of an `f32` obtained from a decimal literal. -/
structure Dec where
  m : ℤ
  d : ℕ
deriving DecidableEq, Repr

/-- Rational value denoted by a `Dec`. -/
def Dec.val (x : Dec) : ℚ := (x.m : ℚ) / 10 ^ x.d

/-- Negation of a decimal number (used for the leading `-` sign). -/
def Dec.neg (x : Dec) : Dec := ⟨-x.m, x.d⟩

abbrev Offset : Type := Nat × Nat × Nat

/-- The mesh data container of the source (`struct MeshOBJ`), with `f32`
triples modelled as exact-decimal tuples and `u32` index triples as natural
number triples. -/
structure MeshOBJ where
  positions : List (Dec × Dec × Dec)
  normals   : List (Dec × Dec × Dec)
  uvs       : List (Dec × Dec)
  colors    : List (Dec × Dec × Dec)
  faces     : List (Nat × Nat × Nat)
deriving DecidableEq, Repr

/-- `MeshOBJ::new_empty`. -/
def MeshOBJ.new_empty : MeshOBJ := ⟨[], [], [], [], []⟩

/-- The error enum of the source (`enum Error`); the string payloads are
modelled by the offending token. -/
inductive Error where
  | ParseFloat (detail : List Char)
  | ParseInt (detail : List Char)
  | PositionColorFormat
  | UVFormat
  | NormalFormat
  | FaceIndexFormat
deriving DecidableEq, Repr

/-- Outcome of running a piece of the parser: a Rust panic (`abort`), an
`Err` return, or an `Ok` value. -/
inductive PResult (α : Type) where
  | abort
  | err (e : Error)
  | ok (a : α)
deriving DecidableEq, Repr

def COMMENT : Char := '#'

def POSITION : List Char := ['v']

def UV : List Char := ['v', 't']

def NORMAL : List Char := ['v', 'n']

def INDEX : List Char := ['f']

/-- `str::split("o ")`: split on the (fixed, two-character) pattern `"o "`,
leftmost non-overlapping matches, keeping empty pieces. -/
def splitO : List Char → List (List Char)
  | [] => [[]]
  | [c] => [[c]]
  | a :: b :: rest =>
    if a = 'o' ∧ b = ' ' then [] :: splitO rest
    else
      match splitO (b :: rest) with
      | [] => [[a]]
      | h :: t => (a :: h) :: t

/-- `str::split(c)` for a single-character pattern, keeping empty pieces. -/
def splitChar (sep : Char) : List Char → List (List Char)
  | [] => [[]]
  | c :: rest =>
    if c = sep then [] :: splitChar sep rest
    else
      match splitChar sep rest with
      | [] => [[c]]
      | h :: t => (c :: h) :: t

/-- The characters of Rust's `char::is_whitespace` (the Unicode
`White_Space` property): tab through carriage return, space, next line,
no-break space, ogham space mark, the en-quad .. hair-space range, line and
paragraph separators, narrow no-break space, medium mathematical space and
ideographic space. -/
def rustWhitespaceChars : List Char :=
  ['\t', '\n', '\u000B', '\u000C', '\r', ' ', '\u0085', '\u00A0', '\u1680',
   '\u2000', '\u2001', '\u2002', '\u2003', '\u2004', '\u2005', '\u2006', '\u2007',
   '\u2008', '\u2009', '\u200A', '\u2028', '\u2029', '\u202F', '\u205F', '\u3000']

/-- Rust's `char::is_whitespace`. -/
def rustWhitespace (c : Char) : Bool := rustWhitespaceChars.contains c

/-- Worker for `split_whitespace`; `acc` is the reversed current token. -/
def splitWsGo : List Char → List Char → List (List Char)
  | [], acc => if acc.isEmpty then [] else [acc.reverse]
  | c :: rest, acc =>
    if rustWhitespace c then
      if acc.isEmpty then splitWsGo rest [] else acc.reverse :: splitWsGo rest []
    else splitWsGo rest (c :: acc)

/-- `str::split_whitespace`: maximal runs of non-whitespace characters, with
no empty tokens. -/
def splitWhitespace (l : List Char) : List (List Char) := splitWsGo l []

def digitVal (c : Char) : Nat := c.toNat - 48

/-- Decimal value of a digit string (junk on non-digit characters; always
guarded by `allDigits` below). -/
def natVal (l : List Char) : Nat := l.foldl (fun a c => a * 10 + digitVal c) 0

def allDigits (l : List Char) : Bool := l.all Char.isDigit

/-- Strip an optional leading `+` sign. -/
def stripPlus : List Char → List Char
  | '+' :: rest => rest
  | l => l

/-- `str::parse::<u32>`: an optional leading `+`, then one or more decimal
digits, rejecting values that overflow `u32`. -/
def parseU32 (l : List Char) : Option Nat :=
  if stripPlus l ≠ [] ∧ allDigits (stripPlus l) ∧ natVal (stripPlus l) < 4294967296 then
    some (natVal (stripPlus l))
  else none

/-- Split off an exponent marker (`e`/`E`): mantissa part and optional
exponent part. -/
def splitExp : List Char → List Char × Option (List Char)
  | [] => ([], none)
  | c :: rest =>
    if c = 'e' ∨ c = 'E' then ([], some rest)
    else
      let p := splitExp rest
      (c :: p.1, p.2)

/-- Decimal mantissa: `Digit+ ('.' Digit*)?` or `'.' Digit+` or `Digit+`,
read exactly as (numerator, number of fractional digits). -/
def parseMantissa (l : List Char) : Option (ℕ × ℕ) :=
  match splitChar '.' l with
  | [ip] => if ip ≠ [] ∧ allDigits ip then some (natVal ip, 0) else none
  | [ip, fp] =>
    if allDigits ip ∧ allDigits fp ∧ ¬(ip = [] ∧ fp = []) then
      some (natVal ip * 10 ^ fp.length + natVal fp, fp.length)
    else none
  | _ => none

/-- Optional exponent: an optionally signed digit string. -/
def parseExpPart : Option (List Char) → Option ℤ
  | none => some 0
  | some l =>
    match l with
    | '+' :: rest => if rest ≠ [] ∧ allDigits rest then some ((natVal rest : ℤ)) else none
    | '-' :: rest => if rest ≠ [] ∧ allDigits rest then some (-(natVal rest : ℤ)) else none
    | _ => if l ≠ [] ∧ allDigits l then some ((natVal l : ℤ)) else none

/-- Scale a mantissa `man.1 / 10 ^ man.2` by `10 ^ e`, exactly. -/
def applyExp (man : ℕ × ℕ) (e : ℤ) : Dec :=
  match e with
  | .ofNat k =>
    if k ≤ man.2 then ⟨(man.1 : ℤ), man.2 - k⟩
    else ⟨(man.1 : ℤ) * ((10 ^ (k - man.2) : ℕ) : ℤ), 0⟩
  | .negSucc k => ⟨(man.1 : ℤ), man.2 + (k + 1)⟩

/-- Unsigned part of the float grammar. -/
def parseF32Pos (l : List Char) : Option Dec :=
  match parseMantissa (splitExp l).1, parseExpPart (splitExp l).2 with
  | some man, some e => some (applyExp man e)
  | _, _ => none

/-- `str::parse::<f32>`, modelled exactly (finite-literal grammar). -/
def parseF32 (l : List Char) : Option Dec :=
  match l with
  | '+' :: rest => parseF32Pos rest
  | '-' :: rest => (parseF32Pos rest).map Dec.neg
  | _ => parseF32Pos l

/-- Worker for the `parse_floats` closure: decode every token, returning the
first failure. -/
def parseFloatList : List (List Char) → Except Error (List Dec)
  | [] => .ok []
  | s :: rest =>
    match parseF32 s with
    | none => .error (.ParseFloat s)
    | some q =>
      match parseFloatList rest with
      | .error e => .error e
      | .ok qs => .ok (q :: qs)

/-- The `parse_floats` closure: decode every token after the keyword. -/
def parse_floats (symbols : List (List Char)) : Except Error (List Dec) :=
  parseFloatList (symbols.drop 1)

/-- Wrapping `u32` subtraction (`a - b` on `u32` in a release build), for
`a b < 2 ^ 32`. -/
def wrapSub (a b : Nat) : Nat := (a + 4294967296 - b) % 4294967296

/-- Decode the `/`-separated sub-tokens of one face-vertex token as `u32`,
returning the first failure. -/
def parseFaceSubs : List (List Char) → Except Error (List Nat)
  | [] => .ok []
  | s :: rest =>
    match parseU32 s with
    | none => .error (.ParseInt s)
    | some u =>
      match parseFaceSubs rest with
      | .error e => .error e
      | .ok us => .ok (u :: us)

/-- The per-channel maximum update of `next_index_offset` performed for one
decoded face triple. -/
def maxStep (n : Offset) (f : Nat × Nat × Nat) : Offset :=
  (max n.1 f.1, max n.2.1 f.2.1, max n.2.2 f.2.2)

/-- Processing of one face-vertex token inside the `f` branch: decode the
sub-tokens, require exactly three, update the running maximum, and append
the offset-corrected triple. -/
def processFaceToken (index_offset : Offset) (st : MeshOBJ × Offset) (tok : List Char) :
    PResult (MeshOBJ × Offset) :=
  match parseFaceSubs (splitChar '/' tok) with
  | .error e => .err e
  | .ok result =>
    match result with
    | [r0, r1, r2] =>
      .ok ({ st.1 with faces := st.1.faces ++
              [(wrapSub r0 index_offset.1, wrapSub r1 index_offset.2.1,
                wrapSub r2 index_offset.2.2)] },
           maxStep st.2 (r0, r1, r2))
    | _ => .err .FaceIndexFormat

/-- The loop over the tokens of one `f` line. -/
def processFaceTokens (index_offset : Offset) :
    MeshOBJ × Offset → List (List Char) → PResult (MeshOBJ × Offset)
  | st, [] => .ok st
  | st, tok :: rest =>
    match processFaceToken index_offset st tok with
    | .abort => .abort
    | .err e => .err e
    | .ok st2 => processFaceTokens index_offset st2 rest

/-- The body of the per-line loop of the `parser` closure: skip empty and
comment lines, split into tokens (indexing `symbols[0]` panics on an empty
token vector), and dispatch on the keyword. -/
def parseLine (index_offset : Offset) (st : MeshOBJ × Offset) (line : List Char) :
    PResult (MeshOBJ × Offset) :=
  if line.isEmpty then .ok st
  else if line.contains COMMENT then .ok st
  else
    match splitWhitespace line with
    | [] => .abort
    | s0 :: rest =>
      if s0 = POSITION then
        match parse_floats (s0 :: rest) with
        | .error e => .err e
        | .ok result =>
          match result with
          | [a, b, c] =>
            .ok ({ st.1 with positions := st.1.positions ++ [(a, b, c)] }, st.2)
          | [a, b, c, d, e2, f2] =>
            .ok ({ st.1 with
                   positions := st.1.positions ++ [(a, b, c)]
                   colors := st.1.colors ++ [(d, e2, f2)] }, st.2)
          | _ => .err .PositionColorFormat
      else if s0 = UV then
        match parse_floats (s0 :: rest) with
        | .error e => .err e
        | .ok result =>
          match result with
          | [a, b] => .ok ({ st.1 with uvs := st.1.uvs ++ [(a, b)] }, st.2)
          | _ => .err .UVFormat
      else if s0 = NORMAL then
        match parse_floats (s0 :: rest) with
        | .error e => .err e
        | .ok result =>
          match result with
          | [a, b, c] =>
            .ok ({ st.1 with normals := st.1.normals ++ [(a, b, c)] }, st.2)
          | _ => .err .NormalFormat
      else if s0 = INDEX then processFaceTokens index_offset st rest
      else .ok st

/-- The line loop of the `parser` closure. -/
def parserGo (index_offset : Offset) :
    List (List Char) → MeshOBJ × Offset → PResult (MeshOBJ × Offset)
  | [], st => .ok st
  | line :: rest, st =>
    match parseLine index_offset st line with
    | .abort => .abort
    | .err e => .err e
    | .ok st2 => parserGo index_offset rest st2

/-- The `parser` closure of `parse_obj`: parse the lines of one object chunk,
starting from an empty mesh and a zero `next_index_offset`. -/
def parser (lines : List (List Char)) (index_offset : Offset) :
    PResult (MeshOBJ × Offset) :=
  parserGo index_offset lines (MeshOBJ.new_empty, (0, 0, 0))

/-- The chunk loop of `parse_obj`, threading the index offset between
chunks. -/
def parseChunks : List (List Char) → Offset → PResult (List MeshOBJ)
  | [], _ => .ok []
  | chunk :: rest, off =>
    match parser (splitChar '\n' chunk) off with
    | .abort => .abort
    | .err e => .err e
    | .ok (obj, nextOff) =>
      match parseChunks rest nextOff with
      | .abort => .abort
      | .err e => .err e
      | .ok objs => .ok (obj :: objs)

/-- `parse_obj`: split the source on `"o "`, discard the first chunk, and
parse each remaining chunk in order. -/
def parse_obj (src : String) : PResult (List MeshOBJ) :=
  parseChunks ((splitO src.data).drop 1) (0, 0, 0)

/-- `MeshOBJ::as_opengl_format`'s per-face loop: dereference the (1-based)
face indices (a `u32` decrement followed by a vector index; an out-of-range
index panics, i.e. yields `none`) and push 3 position + 3 normal + 2 uv
floats plus the sequential index, which the source pushes as `idx as u32`,
a wrapping cast (modelled by `% 2^32`). -/
def oglGo (m : MeshOBJ) : Nat → List (Nat × Nat × Nat) → Option (List Dec × List Nat)
  | _, [] => some ([], [])
  | idx, f :: rest =>
    match m.positions.get? (wrapSub f.1 1), m.normals.get? (wrapSub f.2.2 1),
          m.uvs.get? (wrapSub f.2.1 1) with
    | some p, some nrm, some u =>
      match oglGo m (idx + 1) rest with
      | none => none
      | some (vs, is) =>
        some (p.1 :: p.2.1 :: p.2.2 :: nrm.1 :: nrm.2.1 :: nrm.2.2 :: u.1 :: u.2 :: vs,
              idx % 4294967296 :: is)
    | _, _, _ => none

/-- `MeshOBJ::as_opengl_format`. -/
def MeshOBJ.as_opengl_format (m : MeshOBJ) : Option (List Dec × List Nat) :=
  oglGo m 0 m.faces

def digitChar (d : Nat) : Char := Char.ofNat (48 + d)

/-- Decimal digit characters of `n`, most significant first (worker with
fuel; `n + 1` units of fuel always suffice). -/
def natDigitsGo : Nat → Nat → List Char
  | 0, _ => []
  | fuel + 1, n =>
    if n < 10 then [digitChar n] else natDigitsGo fuel (n / 10) ++ [digitChar (n % 10)]

def natToChars (n : Nat) : List Char := natDigitsGo (n + 1) n

/-- The integer printed by `\x7b:7.3\x7d` in thousandths: the value of `x`
rounded to the nearest thousandth (halves up; the exact tie-breaking of the
float formatter is immaterial to the claims). -/
def round3D (x : Dec) : ℤ :=
  if x.d ≤ 3 then x.m * ((10 ^ (3 - x.d) : ℕ) : ℤ)
  else (2 * x.m + ((10 ^ (x.d - 3) : ℕ) : ℤ)) / (2 * ((10 ^ (x.d - 3) : ℕ) : ℤ))

/-- The 3-decimal rounding of `x`: the value a formatted-and-reparsed
component takes. -/
def r3D (x : Dec) : Dec := ⟨round3D x, 3⟩

/-- Core (unpadded) text of `\x7b:7.3\x7d` applied to `x`: optional sign,
integer digits, a point, exactly three fractional digits. -/
def fmtCore3 (x : Dec) : List Char :=
  let a := (round3D x).natAbs
  (if round3D x < 0 then ['-'] else []) ++ natToChars (a / 1000) ++
    '.' :: [digitChar (a / 100 % 10), digitChar (a / 10 % 10), digitChar (a % 10)]

def padTo (w : Nat) (l : List Char) : List Char := List.replicate (w - l.length) ' ' ++ l

/-- `\x7b:7.3\x7d`: fixed three decimals, right-aligned in width 7. -/
def fmtF73 (x : Dec) : List Char := padTo 7 (fmtCore3 x)

/-- `\x7b:6\x7d`: a `u32`, right-aligned in width 6. -/
def fmtU6 (n : Nat) : List Char := padTo 6 (natToChars n)

/-- The `msg2` closure of the `Display` impl: one `vt` line per uv (note the
trailing space before the newline). -/
def msg2 : List (Dec × Dec) → List Char
  | [] => []
  | p :: rest =>
    'v' :: 't' :: ' ' :: (fmtF73 p.1 ++ ' ' :: fmtF73 p.2 ++ ' ' :: '\n' :: msg2 rest)

/-- The `msg3` closure of the `Display` impl: one `kind` line per triple. -/
def msg3 (kind : List Char) : List (Dec × Dec × Dec) → List Char
  | [] => []
  | p :: rest =>
    kind ++ ' ' :: (fmtF73 p.1 ++ ' ' :: fmtF73 p.2.1 ++ ' ' :: fmtF73 p.2.2 ++
      '\n' :: msg3 kind rest)

/-- The loop of the `msg_u32` closure: each face prints three width-6
indices separated by `/` and a trailing space, and after the face at
position `idx` with `idx % 3 = 0` an extra `"\nf "` is emitted. -/
def msgU32Go : Nat → List (Nat × Nat × Nat) → List Char
  | _, [] => []
  | idx, p :: rest =>
    fmtU6 p.1 ++ '/' :: fmtU6 p.2.1 ++ '/' :: fmtU6 p.2.2 ++ ' ' ::
      ((if idx % 3 = 0 then ['\n', 'f', ' '] else []) ++ msgU32Go (idx + 1) rest)

/-- The `msg_u32` closure of the `Display` impl (starts with `"f "`). -/
def msg_u32 (vec : List (Nat × Nat × Nat)) : List Char := 'f' :: ' ' :: msgU32Go 0 vec

/-- The `Display` impl for `MeshOBJ`: positions, uvs, normals, colors (with
the unrecognized keyword `color`, only when non-empty), then faces. -/
def MeshOBJ.fmt (m : MeshOBJ) : List Char :=
  msg3 ['v'] m.positions ++ msg2 m.uvs ++ msg3 ['v', 'n'] m.normals ++
    (if m.colors.isEmpty then [] else msg3 ['c', 'o', 'l', 'o', 'r'] m.colors) ++
    msg_u32 m.faces

def MeshOBJ.toText (m : MeshOBJ) : String := ⟨m.fmt⟩

/-- A line that the per-line loop can process without indexing an empty
token vector: empty, comment, or at least one token. -/
def lineOK (line : List Char) : Bool :=
  line.isEmpty || line.contains COMMENT || !(splitWhitespace line).isEmpty

def chunkOK (chunk : List Char) : Bool := (splitChar '\n' chunk).all lineOK

def srcOK (src : String) : Bool := ((splitO src.data).drop 1).all chunkOK

/-- `noOS l` holds when `l` does not contain the two-character substring
`"o "` (no adjacent pair `'o'`, `' '`). -/
def noOS : List Char → Bool
  | [] => true
  | [_] => true
  | a :: b :: rest => !(a = 'o' && b = ' ') && noOS (b :: rest)

/-- The relation between adjacent characters that `noOS` enforces: the pair
is not `'o'` followed by `' '`. -/
abbrev noPair (a b : Char) : Prop := ¬(a = 'o' ∧ b = ' ')

/-- The per-channel subtraction of an incoming index offset from a list of
raw face triples (the correction `parse_obj` applies to every face of one
object chunk). -/
def offsetFaces (off : Offset) (fs : List (Nat × Nat × Nat)) : List (Nat × Nat × Nat) :=
  fs.map (fun f => (wrapSub f.1 off.1, wrapSub f.2.1 off.2.1, wrapSub f.2.2 off.2.2))

/-- Per-channel maximum of a list of face triples (with 0 for an empty
list): the value the chunk parser accumulates in `next_index_offset`. -/
def facesMax (fs : List (Nat × Nat × Nat)) : Offset := fs.foldl maxStep (0, 0, 0)

/-- Transport of a chunk-parser state from a zero incoming offset to
incoming offset `off`: identical except that every stored face is
offset-corrected. -/
def applyOff (off : Offset) (st : MeshOBJ × Offset) : MeshOBJ × Offset :=
  ({ st.1 with faces := offsetFaces off st.1.faces }, st.2)

/-- Transport of a chunk-parser outcome from a zero incoming offset to
incoming offset `off`. -/
def PRmap (off : Offset) : PResult (MeshOBJ × Offset) → PResult (MeshOBJ × Offset)
  | .abort => .abort
  | .err e => .err e
  | .ok st => .ok (applyOff off st)

/-- Rounding of a `Dec` triple to three decimals (what a serialize/parse
round trip produces for a `v`/`vn` record). -/
def r3Triple (p : Dec × Dec × Dec) : Dec × Dec × Dec := (r3D p.1, r3D p.2.1, r3D p.2.2)

/-- Rounding of a `Dec` pair to three decimals (what a serialize/parse
round trip produces for a `vt` record). -/
def r3Pair (p : Dec × Dec) : Dec × Dec := (r3D p.1, r3D p.2)

/-- One serialized 3-component record line (without its terminating
newline), as emitted by `msg3`. -/
def lineOf3 (kind : List Char) (p : Dec × Dec × Dec) : List Char :=
  kind ++ (' ' :: (fmtF73 p.1 ++ (' ' :: (fmtF73 p.2.1 ++ (' ' :: fmtF73 p.2.2)))))

/-- One serialized `vt` record line (without its terminating newline), as
emitted by `msg2` — note the trailing space. -/
def lineOf2 (p : Dec × Dec) : List Char :=
  'v' :: 't' :: ' ' :: (fmtF73 p.1 ++ (' ' :: (fmtF73 p.2 ++ (' ' :: []))))

/-- The twelve characters a formatted number can consist of. -/
def numChars : List Char := ['0', '1', '2', '3', '4', '5', '6', '7', '8', '9', '-', '.']

/-! Helper lemmas. -/

theorem contains_of_mem {l : List Char} {a : Char} (h : a ∈ l) : l.contains a = true := by
  simpa using h

theorem parseFaceSubs_ok_of_all (subs : List (List Char))
    (h : ∀ s ∈ subs, (parseU32 s).isSome) :
    ∃ us, parseFaceSubs subs = .ok us ∧ us.length = subs.length := by
  induction subs with
  | nil => exact ⟨[], rfl, rfl⟩
  | cons s rest ih =>
    have hs : (parseU32 s).isSome := h s (by simp)
    obtain ⟨u, hu⟩ := Option.isSome_iff_exists.mp hs
    obtain ⟨us, hus, hlen⟩ := ih (fun t ht => h t (by simp [ht]))
    refine ⟨u :: us, ?_, by simp [hlen]⟩
    simp [parseFaceSubs, hu, hus]

theorem parseFaceSubs_err_of_exists (subs : List (List Char))
    (h : ∃ s ∈ subs, parseU32 s = none) :
    ∃ d, parseFaceSubs subs = .error (.ParseInt d) := by
  induction subs with
  | nil => simp at h
  | cons s rest ih =>
    by_cases hs : parseU32 s = none
    · exact ⟨s, by simp [parseFaceSubs, hs]⟩
    · obtain ⟨u, hu⟩ := Option.ne_none_iff_exists'.mp hs
      obtain ⟨t, ht, htn⟩ := h
      rcases List.mem_cons.mp ht with heq | hmem
      · exact absurd (heq ▸ htn) hs
      · obtain ⟨d, hd⟩ := ih ⟨t, hmem, htn⟩
        exact ⟨d, by simp [parseFaceSubs, hu, hd]⟩

/-! Claim C7. -/

/-- C7: any line inside an object chunk containing `#` anywhere — including
mid-data — is skipped entirely: the parser state is unchanged, so the line
contributes nothing to any buffer and can never cause a parse error. -/
theorem C7_comment_skip (index_offset : Offset) (st : MeshOBJ × Offset) (line : List Char)
    (h : COMMENT ∈ line) : parseLine index_offset st line = .ok st := by
  have hne : line.isEmpty = false := by
    cases line
    · simp at h
    · rfl
  have h1 : line.contains COMMENT = true := contains_of_mem h
  simp [parseLine, hne, h1, h]

/-- Witness for C7 at the spec's example line `v 1.0 2.0 #3.0`. -/
theorem C7_comment_skip_witness :
    COMMENT ∈ ("v 1.0 2.0 #3.0").data ∧
    parseLine (0, 0, 0) (MeshOBJ.new_empty, (0, 0, 0)) (("v 1.0 2.0 #3.0").data) =
      .ok (MeshOBJ.new_empty, (0, 0, 0)) :=
  ⟨by decide, C7_comment_skip _ _ _ (by decide)⟩

/-! Claim C6. -/

/-- C6: for a face-vertex token, if every `/`-separated sub-token decodes as
an unsigned integer but the sub-token count is not 3, processing the token
fails with `FaceIndexFormat`; if some sub-token fails to decode, it fails
with `ParseInt` regardless of the sub-token count (the integer-decode
failure takes precedence over the count check). -/
theorem C6_face_token_errors (index_offset : Offset) (st : MeshOBJ × Offset) (tok : List Char) :
    ((∀ s ∈ splitChar '/' tok, (parseU32 s).isSome) → (splitChar '/' tok).length ≠ 3 →
      processFaceToken index_offset st tok = .err .FaceIndexFormat) ∧
    ((∃ s ∈ splitChar '/' tok, parseU32 s = none) →
      ∃ d, processFaceToken index_offset st tok = .err (.ParseInt d)) := by
  constructor
  · intro hall hlen
    obtain ⟨us, hus, hl⟩ := parseFaceSubs_ok_of_all _ hall
    unfold processFaceToken
    rw [hus]
    rcases us with _ | ⟨a, _ | ⟨b, _ | ⟨c, _ | ⟨d, t⟩⟩⟩⟩ <;> simp_all
  · intro hex
    obtain ⟨d, hd⟩ := parseFaceSubs_err_of_exists _ hex
    exact ⟨d, by simp [processFaceToken, hd]⟩

/-- Witness for C6 at the spec's example tokens `1/2` and `1/a/2`. -/
theorem C6_face_token_errors_witness :
    processFaceToken (0, 0, 0) (MeshOBJ.new_empty, (0, 0, 0)) (("1/2").data) =
      .err .FaceIndexFormat ∧
    ∃ d, processFaceToken (0, 0, 0) (MeshOBJ.new_empty, (0, 0, 0)) (("1/a/2").data) =
      .err (.ParseInt d) :=
  ⟨(C6_face_token_errors _ _ _).1 (by decide) (by decide),
   (C6_face_token_errors _ _ _).2 (by decide)⟩

/-! Claim C5. -/

/-- C5: for a `v` line inside an object chunk, exactly 3 decoded float
values append one entry to positions and none to colors; exactly 6 append
one entry to positions and one to colors; any other decoded count fails
with `PositionColorFormat`. -/
theorem C5_v_line (index_offset : Offset) (mesh : MeshOBJ) (nxt : Offset) (line : List Char)
    (l : List Dec)
    (hc : COMMENT ∉ line)
    (hv : (splitWhitespace line).head? = some POSITION)
    (hf : parse_floats (splitWhitespace line) = .ok l) :
    (l.length = 3 → ∃ p, parseLine index_offset (mesh, nxt) line =
        .ok ({ mesh with positions := mesh.positions ++ [p] }, nxt)) ∧
    (l.length = 6 → ∃ p c, parseLine index_offset (mesh, nxt) line =
        .ok ({ mesh with positions := mesh.positions ++ [p], colors := mesh.colors ++ [c] }, nxt)) ∧
    (l.length ≠ 3 → l.length ≠ 6 →
      parseLine index_offset (mesh, nxt) line = .err .PositionColorFormat) := by
  rcases hsw : splitWhitespace line with _ | ⟨s0, rest⟩
  · rw [hsw] at hv
    simp at hv
  · rw [hsw] at hv hf
    have hs0 : s0 = POSITION := by simpa using hv
    subst hs0
    have hne : line.isEmpty = false := by
      cases line
      · simp [splitWhitespace, splitWsGo] at hsw
      · rfl
    have hcc : line.contains COMMENT = false :=
      Bool.eq_false_iff.mpr (fun hcon => hc (by simpa using hcon))
    refine ⟨?_, ?_, ?_⟩
    · intro h3
      obtain ⟨a, b, c, rfl⟩ := List.length_eq_three.mp h3
      exact ⟨(a, b, c), by simp [parseLine, hne, hcc, hsw, hf, hc]⟩
    · intro h6
      rcases l with _ | ⟨a, _ | ⟨b, _ | ⟨c, _ | ⟨d, _ | ⟨e2, _ | ⟨f2, _ | ⟨g, t⟩⟩⟩⟩⟩⟩⟩ <;>
        simp at h6
      exact ⟨(a, b, c), (d, e2, f2), by simp [parseLine, hne, hcc, hsw, hf, hc]⟩
    · intro h3 h6
      rcases l with _ | ⟨a, _ | ⟨b, _ | ⟨c, _ | ⟨d, _ | ⟨e2, _ | ⟨f2, _ | ⟨g, t⟩⟩⟩⟩⟩⟩⟩ <;>
        first
          | exact absurd rfl h3
          | exact absurd rfl h6
          | simp [parseLine, hne, hcc, hsw, hf, hc]

/-- Witness for C5 at a `v` line with five numeric fields. -/
theorem C5_v_line_witness :
    parseLine (0, 0, 0) (MeshOBJ.new_empty, (0, 0, 0)) (("v 1 2 3 4 5").data) =
      .err .PositionColorFormat :=
  (C5_v_line 0 MeshOBJ.new_empty (0, 0, 0) (("v 1 2 3 4 5").data)
    [⟨1, 0⟩, ⟨2, 0⟩, ⟨3, 0⟩, ⟨4, 0⟩, ⟨5, 0⟩]
    (by decide) (by decide) (by rfl)).2.2 (by decide) (by decide)

/-! Claim C10. -/

theorem splitO_eq_self : ∀ l : List Char, noOS l = true → splitO l = [l]
  | [], _ => rfl
  | [c], _ => rfl
  | a :: b :: rest, h => by
    have hp : ¬(a = 'o' ∧ b = ' ') := by
      rintro ⟨rfl, rfl⟩
      simp [noOS] at h
    have h2 : noOS (b :: rest) = true := by
      cases hno : noOS (b :: rest)
      · simp [noOS, hno] at h
      · rfl
    have hrec := splitO_eq_self (b :: rest) h2
    simp only [splitO]
    rw [if_neg hp, hrec]

theorem noOS_of_no_marker : ∀ l : List Char, ¬ ['o', ' '] <:+: l → noOS l = true
  | [], _ => rfl
  | [c], _ => rfl
  | a :: b :: rest, h => by
    have hp : ¬(a = 'o' ∧ b = ' ') := by
      rintro ⟨rfl, rfl⟩
      exact h ⟨[], rest, rfl⟩
    have h2 : noOS (b :: rest) = true :=
      noOS_of_no_marker (b :: rest) (fun hin => by
        obtain ⟨s, t, hst⟩ := hin
        exact h ⟨a :: s, t, by simp [hst]⟩)
    simp only [noOS, h2, Bool.and_true]
    simp only [Bool.not_eq_true', Bool.and_eq_false_iff, decide_eq_false_iff_not]
    rcases Decidable.not_and_iff_or_not.mp hp with h1 | h1
    · exact Or.inl h1
    · exact Or.inr h1

/-- C10: an input string that does not contain the two-character substring
`"o "` (the empty string included) always parses to `Ok` with an empty
sequence of meshes, however malformed the rest of the text is: everything
falls in the discarded first chunk. -/
theorem C10_no_object_marker (src : String) (h : ¬ ['o', ' '] <:+: src.data) :
    parse_obj src = .ok [] := by
  unfold parse_obj
  rw [splitO_eq_self src.data (noOS_of_no_marker src.data h)]
  rfl

/-- Witness for C10 at a thoroughly malformed input without `"o "`. -/
theorem C10_no_object_marker_witness :
    parse_obj ("v 1 2\nf x\n## o\nzzz") = .ok [] :=
  C10_no_object_marker _ (by decide)

/-! Counterexamples to claims C1, C2, C3 and C8 as stated. -/

/-- C1 fails as stated: in this two-object input, object 2's raw face
indices are exactly object 1's vertex counts `(1, 0, 0)` plus valid local
indices, yet the parsed second mesh contains the face triple `(3, 1, 1)`
with only 2 positions: object 1 has no face records, so the running offset
handed to object 2 is `(0, 0, 0)` — not object 1's vertex counts — and no
correction is applied. -/
theorem C1_counterexample :
    ∃ mA mB, parse_obj
        ("o A\nv 0 0 0\no B\nv 1 1 1\nv 2 2 2\nvt 0 0\nvn 0 0 1\nf 2/1/1 3/1/1 3/1/1\n") =
        .ok [mA, mB] ∧
      mA.positions.length = 1 ∧ mA.faces = [] ∧
      mB.positions.length = 2 ∧ mB.faces = [(2, 1, 1), (3, 1, 1), (3, 1, 1)] ∧
      ¬(∀ f ∈ mB.faces, 1 ≤ f.1 ∧ f.1 ≤ mB.positions.length) :=
  ⟨⟨[(⟨0, 0⟩, ⟨0, 0⟩, ⟨0, 0⟩)], [], [], [], []⟩,
   ⟨[(⟨1, 0⟩, ⟨1, 0⟩, ⟨1, 0⟩), (⟨2, 0⟩, ⟨2, 0⟩, ⟨2, 0⟩)], [(⟨0, 0⟩, ⟨0, 0⟩, ⟨1, 0⟩)],
    [(⟨0, 0⟩, ⟨0, 0⟩)], [], [(2, 1, 1), (3, 1, 1), (3, 1, 1)]⟩,
   by decide, by decide, by decide, by decide, by decide, by decide⟩

/-- C2 fails as stated: mixing a 3-value `v` line with a 6-value `v` line
yields a mesh whose colors buffer is neither empty nor of the same length
as its positions buffer. -/
theorem C2_counterexample :
    ∃ m, parse_obj ("o A\nv 1 2 3\nv 1 2 3 4 5 6\n") = .ok [m] ∧
      m.colors ≠ [] ∧ m.colors.length ≠ m.positions.length :=
  ⟨⟨[(⟨1, 0⟩, ⟨2, 0⟩, ⟨3, 0⟩), (⟨1, 0⟩, ⟨2, 0⟩, ⟨3, 0⟩)], [], [],
    [(⟨4, 0⟩, ⟨5, 0⟩, ⟨6, 0⟩)], []⟩,
   by decide, by decide, by decide⟩

/-- C3 fails as stated: serializing a mesh with one face and re-parsing the
text after an object marker does not succeed — the width-6 padding inside
face tokens makes `split_whitespace` produce the token `1/`, whose empty
sub-token fails `u32` decoding, so the whole parse aborts with a `ParseInt`
error. -/
theorem C3_counterexample :
    parse_obj ("o x\n" ++ (⟨[(⟨1, 0⟩, ⟨2, 0⟩, ⟨3, 0⟩)], [(⟨0, 0⟩, ⟨0, 0⟩, ⟨1, 0⟩)],
        [(⟨0, 0⟩, ⟨0, 0⟩)], [], [(1, 1, 1)]⟩ : MeshOBJ).toText) =
      .err (.ParseInt []) := by
  decide

/-- C8 fails as stated: a whitespace-only (but non-empty) line inside an
object chunk makes `symbols[0]` index an empty token vector (a panic), and
a face index smaller than the incoming offset underflows the `u32`
subtraction (wrapping to `2 ^ 32 - 1` in a release build). -/
theorem C8_counterexample :
    parse_obj ("o A\n \n") = .abort ∧
    ∃ m1 m2, parse_obj ("o A\nf 2/2/2 2/2/2 2/2/2\no B\nf 1/1/1 1/1/1 1/1/1\n") =
        .ok [m1, m2] ∧
      m2.faces = [(4294967295, 4294967295, 4294967295), (4294967295, 4294967295, 4294967295),
                  (4294967295, 4294967295, 4294967295)] :=
  ⟨by decide,
   ⟨[], [], [], [], [(2, 2, 2), (2, 2, 2), (2, 2, 2)]⟩,
   ⟨[], [], [], [], [(4294967295, 4294967295, 4294967295), (4294967295, 4294967295, 4294967295),
                     (4294967295, 4294967295, 4294967295)]⟩,
   by decide, by decide⟩

/-! Claim C2 (amended): the colors buffer never outgrows positions. -/

theorem processFaceToken_ok_shape (index_offset : Offset) (st : MeshOBJ × Offset)
    (tok : List Char) (st2 : MeshOBJ × Offset)
    (h : processFaceToken index_offset st tok = .ok st2) :
    st2.1.positions = st.1.positions ∧ st2.1.normals = st.1.normals ∧
    st2.1.uvs = st.1.uvs ∧ st2.1.colors = st.1.colors := by
  unfold processFaceToken at h
  split at h
  · simp at h
  · split at h
    · cases h
      simp
    · simp at h

theorem processFaceTokens_ok_shape (index_offset : Offset) :
    ∀ (toks : List (List Char)) (st st2 : MeshOBJ × Offset),
      processFaceTokens index_offset st toks = .ok st2 →
      st2.1.positions = st.1.positions ∧ st2.1.normals = st.1.normals ∧
      st2.1.uvs = st.1.uvs ∧ st2.1.colors = st.1.colors
  | [], st, st2, h => by
    cases h
    exact ⟨rfl, rfl, rfl, rfl⟩
  | tok :: rest, st, st2, h => by
    unfold processFaceTokens at h
    split at h
    · simp at h
    · simp at h
    · rename_i st3 heq
      obtain ⟨h1, h2, h3, h4⟩ := processFaceToken_ok_shape _ _ _ _ heq
      obtain ⟨g1, g2, g3, g4⟩ := processFaceTokens_ok_shape index_offset rest st3 st2 h
      exact ⟨g1.trans h1, g2.trans h2, g3.trans h3, g4.trans h4⟩

theorem parseLine_colors_le (index_offset : Offset) (st st2 : MeshOBJ × Offset)
    (line : List Char) (h : parseLine index_offset st line = .ok st2)
    (hle : st.1.colors.length ≤ st.1.positions.length) :
    st2.1.colors.length ≤ st2.1.positions.length := by
  unfold parseLine at h
  split at h
  · cases h; exact hle
  · split at h
    · cases h; exact hle
    · split at h
      · simp at h
      · split at h
        · -- POSITION branch
          split at h
          · simp at h
          · split at h
            · cases h
              simpa using Nat.le_succ_of_le hle
            · cases h
              simpa using Nat.succ_le_succ hle
            · simp at h
        · split at h
          · -- UV branch
            split at h
            · simp at h
            · split at h
              · cases h
                simpa using hle
              · simp at h
          · split at h
            · -- NORMAL branch
              split at h
              · simp at h
              · split at h
                · cases h
                  simpa using hle
                · simp at h
            · split at h
              · -- INDEX branch
                obtain ⟨h1, _, _, h4⟩ := processFaceTokens_ok_shape _ _ _ _ h
                rw [h1, h4]
                exact hle
              · cases h; exact hle

theorem parserGo_colors_le (index_offset : Offset) :
    ∀ (lines : List (List Char)) (st st2 : MeshOBJ × Offset),
      parserGo index_offset lines st = .ok st2 →
      st.1.colors.length ≤ st.1.positions.length →
      st2.1.colors.length ≤ st2.1.positions.length
  | [], st, st2, h, hle => by
    cases h
    exact hle
  | line :: rest, st, st2, h, hle => by
    unfold parserGo at h
    split at h
    · simp at h
    · simp at h
    · rename_i st3 heq
      exact parserGo_colors_le index_offset rest st3 st2 h
        (parseLine_colors_le _ _ _ _ heq hle)

theorem parseChunks_colors_le :
    ∀ (chunks : List (List Char)) (off : Offset) (ms : List MeshOBJ),
      parseChunks chunks off = .ok ms →
      ∀ m ∈ ms, m.colors.length ≤ m.positions.length
  | [], _, ms, h => by
    cases h
    intro m hm
    simp at hm
  | chunk :: rest, off, ms, h => by
    unfold parseChunks at h
    split at h
    · simp at h
    · simp at h
    · rename_i obj nextOff heq
      split at h
      · simp at h
      · simp at h
      · rename_i objs heq2
        cases h
        intro m hm
        rcases List.mem_cons.mp hm with rfl | hm2
        · exact parserGo_colors_le _ _ _ _ heq (by simp [MeshOBJ.new_empty])
        · exact parseChunks_colors_le rest nextOff objs heq2 m hm2

/-- C2 (amended): for every MeshOBJ produced by `parse_obj`, the colors
buffer is never longer than the positions buffer.  (Equality with the
positions length, or emptiness, does not hold in general: mixing 3-value
and 6-value `v` lines gives `[]` ≠ `colors` with
`colors.length < positions.length`, see the counterexample.) -/
theorem C2_colors_bound_amended (src : String) (ms : List MeshOBJ)
    (h : parse_obj src = .ok ms) :
    ∀ m ∈ ms, m.colors.length ≤ m.positions.length :=
  parseChunks_colors_le _ _ _ h

/-- Witness for C2 (amended) at the arity-mixing input. -/
theorem C2_colors_bound_amended_witness :
    (⟨[(⟨1, 0⟩, ⟨2, 0⟩, ⟨3, 0⟩), (⟨1, 0⟩, ⟨2, 0⟩, ⟨3, 0⟩)], [], [],
        [(⟨4, 0⟩, ⟨5, 0⟩, ⟨6, 0⟩)], []⟩ : MeshOBJ).colors.length ≤
      (⟨[(⟨1, 0⟩, ⟨2, 0⟩, ⟨3, 0⟩), (⟨1, 0⟩, ⟨2, 0⟩, ⟨3, 0⟩)], [], [],
        [(⟨4, 0⟩, ⟨5, 0⟩, ⟨6, 0⟩)], []⟩ : MeshOBJ).positions.length :=
  C2_colors_bound_amended ("o A\nv 1 2 3\nv 1 2 3 4 5 6\n")
    [⟨[(⟨1, 0⟩, ⟨2, 0⟩, ⟨3, 0⟩), (⟨1, 0⟩, ⟨2, 0⟩, ⟨3, 0⟩)], [], [],
        [(⟨4, 0⟩, ⟨5, 0⟩, ⟨6, 0⟩)], []⟩] (by decide) _ (by simp)

/-! Claim C4. -/

theorem wrapSub_one_lt {a len : Nat} (h1 : 1 ≤ a) (h2 : a ≤ len) : wrapSub a 1 < len := by
  unfold wrapSub
  have he : a + 4294967296 - 1 = (a - 1) + 4294967296 := by omega
  rw [he, Nat.add_mod_right]
  calc (a - 1) % 4294967296 ≤ a - 1 := Nat.mod_le _ _
    _ < len := by omega

theorem oglGo_ok (m : MeshOBJ) :
    ∀ (faces : List (Nat × Nat × Nat)) (idx : Nat),
      (∀ f ∈ faces, 1 ≤ f.1 ∧ f.1 ≤ m.positions.length ∧ 1 ≤ f.2.1 ∧ f.2.1 ≤ m.uvs.length ∧
        1 ≤ f.2.2 ∧ f.2.2 ≤ m.normals.length) →
      ∃ vs is, oglGo m idx faces = some (vs, is) ∧ vs.length = 8 * faces.length ∧
        is = (List.range' idx faces.length).map (fun i => i % 4294967296)
  | [], idx, _ => ⟨[], [], rfl, rfl, rfl⟩
  | f :: rest, idx, h => by
    obtain ⟨hp1, hp2, hu1, hu2, hn1, hn2⟩ := h f (by simp)
    have hpos := wrapSub_one_lt hp1 hp2
    have huv := wrapSub_one_lt hu1 hu2
    have hnrm := wrapSub_one_lt hn1 hn2
    obtain ⟨vs, is, hgo, hlen, his⟩ := oglGo_ok m rest (idx + 1) (fun g hg => h g (by simp [hg]))
    refine ⟨(m.positions.get ⟨wrapSub f.1 1, hpos⟩).1 ::
         (m.positions.get ⟨wrapSub f.1 1, hpos⟩).2.1 ::
         (m.positions.get ⟨wrapSub f.1 1, hpos⟩).2.2 ::
         (m.normals.get ⟨wrapSub f.2.2 1, hnrm⟩).1 ::
         (m.normals.get ⟨wrapSub f.2.2 1, hnrm⟩).2.1 ::
         (m.normals.get ⟨wrapSub f.2.2 1, hnrm⟩).2.2 ::
         (m.uvs.get ⟨wrapSub f.2.1 1, huv⟩).1 ::
         (m.uvs.get ⟨wrapSub f.2.1 1, huv⟩).2 :: vs, idx % 4294967296 :: is, ?_, ?_, ?_⟩
    · unfold oglGo
      rw [List.get?_eq_get hpos, List.get?_eq_get hnrm, List.get?_eq_get huv, hgo]
    · simp only [List.length_cons, hlen]
      omega
    · rw [his]
      rfl

/-- C4 fails as stated: the source pushes the running face position as
`idx as u32`, a wrapping cast, so for a MeshOBJ with more than `2^32` faces
(all of them valid 1-based indices into its buffers) the index buffer wraps
modulo `2^32` and is not `[0, 1, ..., F - 1]`. -/
theorem C4_counterexample :
    ∃ vs is, (⟨[(⟨0, 0⟩, ⟨0, 0⟩, ⟨0, 0⟩)], [(⟨0, 0⟩, ⟨0, 0⟩, ⟨1, 0⟩)], [(⟨0, 0⟩, ⟨0, 0⟩)], [],
        List.replicate 4294967297 (1, 1, 1)⟩ : MeshOBJ).as_opengl_format = some (vs, is) ∧
      (∀ f ∈ List.replicate 4294967297 ((1, 1, 1) : Nat × Nat × Nat),
        1 ≤ f.1 ∧ f.1 ≤ 1 ∧ 1 ≤ f.2.1 ∧ f.2.1 ≤ 1 ∧ 1 ≤ f.2.2 ∧ f.2.2 ≤ 1) ∧
      is ≠ List.range 4294967297 := by
  have hvalid : ∀ f ∈ List.replicate 4294967297 ((1, 1, 1) : Nat × Nat × Nat),
      1 ≤ f.1 ∧ f.1 ≤ 1 ∧ 1 ≤ f.2.1 ∧ f.2.1 ≤ 1 ∧ 1 ≤ f.2.2 ∧ f.2.2 ≤ 1 := by
    intro f hf
    rw [List.eq_of_mem_replicate hf]
    exact ⟨le_refl 1, le_refl 1, le_refl 1, le_refl 1, le_refl 1, le_refl 1⟩
  obtain ⟨vs, is, hgo, hlen, his⟩ :=
    oglGo_ok ⟨[(⟨0, 0⟩, ⟨0, 0⟩, ⟨0, 0⟩)], [(⟨0, 0⟩, ⟨0, 0⟩, ⟨1, 0⟩)], [(⟨0, 0⟩, ⟨0, 0⟩)], [],
      List.replicate 4294967297 (1, 1, 1)⟩ (List.replicate 4294967297 (1, 1, 1)) 0 hvalid
  refine ⟨vs, is, hgo, hvalid, ?_⟩
  rw [his, List.length_replicate]
  intro hcontra
  have hL : ((List.range' 0 4294967297).map (fun i => i % 4294967296))[4294967296]? =
      some 0 := by
    rw [List.getElem?_map, List.getElem?_range' 0 1 (by norm_num)]
    norm_num
  have hR : (List.range 4294967297)[4294967296]? = some 4294967296 :=
    List.getElem?_range (by norm_num)
  rw [hcontra, hR] at hL
  exact absurd (Option.some.inj hL) (by norm_num)

/-- C4 (amended): for every MeshOBJ with at most `2^32` faces whose face
triples are all valid 1-based indices into its positions, uvs and normals
buffers, `as_opengl_format` returns a float buffer of length exactly
`8 * F` (3 position + 3 normal + 2 uv floats per face-vertex, in that
order) and an index buffer `[0, 1, ..., F - 1]` of length exactly `F`,
where `F` is the number of faces; beyond `2^32` faces the `idx as u32`
cast wraps. -/
theorem C4_opengl_format_amended (m : MeshOBJ)
    (h : ∀ f ∈ m.faces, 1 ≤ f.1 ∧ f.1 ≤ m.positions.length ∧ 1 ≤ f.2.1 ∧ f.2.1 ≤ m.uvs.length ∧
      1 ≤ f.2.2 ∧ f.2.2 ≤ m.normals.length)
    (hF : m.faces.length ≤ 4294967296) :
    ∃ vs, m.as_opengl_format = some (vs, List.range m.faces.length) ∧
      vs.length = 8 * m.faces.length := by
  obtain ⟨vs, is, hgo, hlen, his⟩ := oglGo_ok m m.faces 0 h
  have hmap : (List.range' 0 m.faces.length).map (fun i => i % 4294967296) =
      List.range' 0 m.faces.length := by
    rw [List.map_congr_left (g := fun i => i)]
    · exact List.map_id' _
    · intro i hi
      have hlt : i < m.faces.length := by
        have := (List.mem_range'_1.mp hi).2
        omega
      exact Nat.mod_eq_of_lt (by omega)
  rw [hmap] at his
  refine ⟨vs, ?_, hlen⟩
  rw [MeshOBJ.as_opengl_format, hgo, his, List.range_eq_range']

/-- Witness for C4 (amended) at a one-face mesh. -/
theorem C4_opengl_format_amended_witness :
    ∃ vs, (⟨[(⟨0, 0⟩, ⟨0, 0⟩, ⟨0, 0⟩)], [(⟨0, 0⟩, ⟨0, 0⟩, ⟨1, 0⟩)], [(⟨0, 0⟩, ⟨0, 0⟩)], [],
        [(1, 1, 1)]⟩ : MeshOBJ).as_opengl_format =
      some (vs, List.range 1) ∧ vs.length = 8 * 1 :=
  C4_opengl_format_amended _ (by decide) (by norm_num)

/-! Offset transport: parsing a chunk with incoming offset `off` is the
zero-offset parse with every stored face offset-corrected. -/

theorem parseU32_lt {s : List Char} {u : Nat} (h : parseU32 s = some u) : u < 4294967296 := by
  unfold parseU32 at h
  split at h
  · rename_i hcond
    cases h
    exact hcond.2.2
  · simp at h

theorem parseFaceSubs_lt : ∀ (subs : List (List Char)) (us : List Nat),
    parseFaceSubs subs = .ok us → ∀ u ∈ us, u < 4294967296
  | [], us, h => by
    cases h
    simp
  | s :: rest, us, h => by
    unfold parseFaceSubs at h
    split at h
    · simp at h
    · rename_i u0 hu0
      split at h
      · simp at h
      · rename_i us0 hus0
        cases h
        intro u hu
        rcases List.mem_cons.mp hu with rfl | hmem
        · exact parseU32_lt hu0
        · exact parseFaceSubs_lt rest us0 hus0 u hmem

theorem wrapSub_lt (a b : Nat) : wrapSub a b < 4294967296 := Nat.mod_lt _ (by omega)

theorem wrapSub_zero {a : Nat} (h : a < 4294967296) : wrapSub a 0 = a := by
  unfold wrapSub
  omega

theorem wrapSub_eq_sub {a b : Nat} (hb : b ≤ a) (ha : a < 4294967296) : wrapSub a b = a - b := by
  unfold wrapSub
  omega

theorem processFaceToken_ok_cases (index_offset : Offset) (st : MeshOBJ × Offset)
    (tok : List Char) (st2 : MeshOBJ × Offset)
    (h : processFaceToken index_offset st tok = .ok st2) :
    ∃ r0 r1 r2, parseFaceSubs (splitChar '/' tok) = .ok [r0, r1, r2] ∧
      st2 = ({ st.1 with faces := st.1.faces ++
          [(wrapSub r0 index_offset.1, wrapSub r1 index_offset.2.1,
            wrapSub r2 index_offset.2.2)] }, maxStep st.2 (r0, r1, r2)) := by
  unfold processFaceToken at h
  split at h
  · simp at h
  · rename_i us hus
    split at h
    · rename_i r0 r1 r2
      cases h
      exact ⟨r0, r1, r2, hus, rfl⟩
    · simp at h

theorem processFaceToken_offset (off : Offset) (tok : List Char) (st0 : MeshOBJ × Offset) :
    processFaceToken off (applyOff off st0) tok =
      PRmap off (processFaceToken (0, 0, 0) st0 tok) := by
  unfold processFaceToken
  rcases hps : parseFaceSubs (splitChar '/' tok) with e | us
  · simp [PRmap]
  · have hb := parseFaceSubs_lt _ _ hps
    rcases us with _ | ⟨r0, _ | ⟨r1, _ | ⟨r2, _ | ⟨r3, t⟩⟩⟩⟩ <;> simp [PRmap]
    rw [wrapSub_zero (hb r0 (by simp)), wrapSub_zero (hb r1 (by simp)),
      wrapSub_zero (hb r2 (by simp))]
    simp [applyOff, offsetFaces]

theorem processFaceTokens_offset (off : Offset) :
    ∀ (toks : List (List Char)) (st0 : MeshOBJ × Offset),
      processFaceTokens off (applyOff off st0) toks =
        PRmap off (processFaceTokens (0, 0, 0) st0 toks)
  | [], st0 => rfl
  | tok :: rest, st0 => by
    unfold processFaceTokens
    rw [processFaceToken_offset off tok st0]
    cases htk : processFaceToken (0, 0, 0) st0 tok
    · rfl
    · rfl
    · simp only [PRmap]
      exact processFaceTokens_offset off rest _

theorem parseLine_offset (off : Offset) (line : List Char) (st0 : MeshOBJ × Offset) :
    parseLine off (applyOff off st0) line = PRmap off (parseLine (0, 0, 0) st0 line) := by
  cases h1 : line.isEmpty
  case true => simp [parseLine, h1, PRmap]
  case false =>
  cases h2 : line.contains COMMENT
  case true =>
    have hm : COMMENT ∈ line := by simpa using h2
    simp [parseLine, h1, hm, PRmap]
  case false =>
  have hnm : COMMENT ∉ line := by
    intro hmem
    rw [contains_of_mem hmem] at h2
    cases h2
  rcases hsw : splitWhitespace line with _ | ⟨s0, rest⟩
  · simp [parseLine, h1, hnm, hsw, PRmap]
  by_cases hv : s0 = POSITION
  · subst hv
    rcases hpf : parse_floats (POSITION :: rest) with e | result
    · simp [parseLine, h1, hnm, hsw, hpf, PRmap]
    · rcases result with _ | ⟨a, _ | ⟨b, _ | ⟨c, _ | ⟨d, _ | ⟨e2, _ | ⟨f2, _ | ⟨g, t⟩⟩⟩⟩⟩⟩⟩ <;>
        simp [parseLine, h1, hnm, hsw, hpf, PRmap, applyOff]
  by_cases hu : s0 = UV
  · subst hu
    rcases hpf : parse_floats (UV :: rest) with e | result
    · simp [parseLine, h1, hnm, hsw, hv, hpf, PRmap]
    · rcases result with _ | ⟨a, _ | ⟨b, _ | ⟨c, t⟩⟩⟩ <;>
        simp [parseLine, h1, hnm, hsw, hv, hpf, PRmap, applyOff]
  by_cases hn : s0 = NORMAL
  · subst hn
    rcases hpf : parse_floats (NORMAL :: rest) with e | result
    · simp [parseLine, h1, hnm, hsw, hv, hu, hpf, PRmap]
    · rcases result with _ | ⟨a, _ | ⟨b, _ | ⟨c, _ | ⟨d, t⟩⟩⟩⟩ <;>
        simp [parseLine, h1, hnm, hsw, hv, hu, hpf, PRmap, applyOff]
  by_cases hi : s0 = INDEX
  · subst hi
    have htoks := processFaceTokens_offset off rest st0
    simp [parseLine, h1, hnm, hsw, INDEX, POSITION, UV, NORMAL, htoks, PRmap]
  · simp [parseLine, h1, hnm, hsw, hv, hu, hn, hi, PRmap]

theorem parserGo_offset (off : Offset) : ∀ (lines : List (List Char)) (st0 : MeshOBJ × Offset),
    parserGo off lines (applyOff off st0) = PRmap off (parserGo (0, 0, 0) lines st0)
  | [], st0 => rfl
  | line :: rest, st0 => by
    unfold parserGo
    rw [parseLine_offset off line st0]
    cases hl : parseLine (0, 0, 0) st0 line
    · rfl
    · rfl
    · simp only [PRmap]
      exact parserGo_offset off rest _

theorem parser_offset (lines : List (List Char)) (off : Offset) :
    parser lines off = PRmap off (parser lines (0, 0, 0)) :=
  parserGo_offset off lines (MeshOBJ.new_empty, (0, 0, 0))

/-! Claim C9: the returned offset is the per-channel maximum of the raw
face indices of the chunk. -/

theorem facesMax_concat (fs : List (Nat × Nat × Nat)) (f : Nat × Nat × Nat) :
    facesMax (fs ++ [f]) = maxStep (facesMax fs) f := by
  unfold facesMax
  rw [List.foldl_append]
  rfl

theorem processFaceToken_zero_max (st st2 : MeshOBJ × Offset) (tok : List Char)
    (h : processFaceToken (0, 0, 0) st tok = .ok st2)
    (hinv : st.2 = facesMax st.1.faces) : st2.2 = facesMax st2.1.faces := by
  obtain ⟨r0, r1, r2, hps, rfl⟩ := processFaceToken_ok_cases _ _ _ _ h
  have hb := parseFaceSubs_lt _ _ hps
  show maxStep st.2 (r0, r1, r2) =
    facesMax (st.1.faces ++ [(wrapSub r0 0, wrapSub r1 0, wrapSub r2 0)])
  rw [wrapSub_zero (hb r0 (by simp)), wrapSub_zero (hb r1 (by simp)),
    wrapSub_zero (hb r2 (by simp)), facesMax_concat, hinv]

theorem processFaceTokens_zero_max :
    ∀ (toks : List (List Char)) (st st2 : MeshOBJ × Offset),
      processFaceTokens (0, 0, 0) st toks = .ok st2 →
      st.2 = facesMax st.1.faces → st2.2 = facesMax st2.1.faces
  | [], st, st2, h, hinv => by
    cases h
    exact hinv
  | tok :: rest, st, st2, h, hinv => by
    unfold processFaceTokens at h
    split at h
    · simp at h
    · simp at h
    · rename_i st3 heq
      exact processFaceTokens_zero_max rest st3 st2 h
        (processFaceToken_zero_max _ _ _ heq hinv)

theorem parseLine_zero_max (st st2 : MeshOBJ × Offset) (line : List Char)
    (h : parseLine (0, 0, 0) st line = .ok st2)
    (hinv : st.2 = facesMax st.1.faces) : st2.2 = facesMax st2.1.faces := by
  unfold parseLine at h
  split at h
  · cases h; exact hinv
  · split at h
    · cases h; exact hinv
    · split at h
      · simp at h
      · split at h
        · split at h
          · simp at h
          · split at h
            · cases h
              simpa using hinv
            · cases h
              simpa using hinv
            · simp at h
        · split at h
          · split at h
            · simp at h
            · split at h
              · cases h
                simpa using hinv
              · simp at h
          · split at h
            · split at h
              · simp at h
              · split at h
                · cases h
                  simpa using hinv
                · simp at h
            · split at h
              · exact processFaceTokens_zero_max _ _ _ h hinv
              · cases h; exact hinv

theorem parserGo_zero_max :
    ∀ (lines : List (List Char)) (st st2 : MeshOBJ × Offset),
      parserGo (0, 0, 0) lines st = .ok st2 →
      st.2 = facesMax st.1.faces → st2.2 = facesMax st2.1.faces
  | [], st, st2, h, hinv => by
    cases h
    exact hinv
  | line :: rest, st, st2, h, hinv => by
    unfold parserGo at h
    split at h
    · simp at h
    · simp at h
    · rename_i st3 heq
      exact parserGo_zero_max rest st3 st2 h (parseLine_zero_max _ _ _ heq hinv)

/-- C9: when the chunk parser returns successfully, the offset it hands
back to the segmenter equals, per channel, the maximum of the raw
(pre-offset) indices decoded from that chunk's own face records — the
faces the same chunk yields under a zero incoming offset — with maximum
taken from 0, hence `(0, 0, 0)` for a chunk without face records; the
incoming offset is not incorporated into the returned offset. -/
theorem C9_offset_max (lines : List (List Char)) (off : Offset) (m : MeshOBJ) (no : Offset)
    (h : parser lines off = .ok (m, no)) :
    ∃ m0, parser lines (0, 0, 0) = .ok (m0, no) ∧ no = facesMax m0.faces := by
  have htr := parser_offset lines off
  rw [h] at htr
  rcases h0 : parser lines (0, 0, 0) with _ | e | st0
  · rw [h0] at htr
    simp [PRmap] at htr
  · rw [h0] at htr
    simp [PRmap] at htr
  · rw [h0] at htr
    simp only [PRmap, PResult.ok.injEq] at htr
    rcases st0 with ⟨m0, no0⟩
    have hno : no = no0 := congrArg Prod.snd htr
    subst hno
    have hmax : no = facesMax m0.faces := parserGo_zero_max lines _ _ h0 rfl
    exact ⟨m0, rfl, hmax⟩

/-- Witness for C9: a one-face chunk parsed with incoming offset
`(1, 1, 1)`. -/
theorem C9_offset_max_witness :
    ∃ m0, parser [("f 2/3/4").data] (0, 0, 0) = .ok (m0, (2, 3, 4)) ∧
      (2, 3, 4) = facesMax m0.faces :=
  C9_offset_max [("f 2/3/4").data] (1, 1, 1) ⟨[], [], [], [], [(1, 2, 3)]⟩ (2, 3, 4) (by decide)

/-! Claim C1 (amended). -/

theorem parser_faces_lt (lines : List (List Char)) (off : Offset) (m : MeshOBJ) (no : Offset)
    (h : parser lines off = .ok (m, no)) :
    ∀ f ∈ m.faces, f.1 < 4294967296 ∧ f.2.1 < 4294967296 ∧ f.2.2 < 4294967296 := by
  have htr := parser_offset lines off
  rw [h] at htr
  rcases h0 : parser lines (0, 0, 0) with _ | e | ⟨m0, no0⟩ <;> rw [h0] at htr
  · simp [PRmap] at htr
  · simp [PRmap] at htr
  · simp only [PRmap, PResult.ok.injEq] at htr
    have hm : m = (applyOff off (m0, no0)).1 := congrArg Prod.fst htr
    intro f hf
    rw [hm] at hf
    simp only [applyOff, offsetFaces, List.mem_map] at hf
    obtain ⟨g, hg, rfl⟩ := hf
    exact ⟨wrapSub_lt _ _, wrapSub_lt _ _, wrapSub_lt _ _⟩

/-- C1 (amended): for a two-object input in which object 1's face records
cover its buffers (the offset it hands on, i.e. its maximal raw indices,
equals its per-channel vertex counts — this condition is what the claim as
stated is missing, see the counterexample) and object 2's raw face indices
are object 1's vertex counts plus valid local indices, `parse_obj` yields a
second MeshOBJ whose face triples are valid 1-based indices into that
MeshOBJ's own positions/uvs/normals buffers: the running offset from
object 1 is subtracted from object 2's raw indices. -/
theorem C1_offset_correction_amended (src : String) (c1 c2 : List Char)
    (m1 m2raw : MeshOBJ) (off1 off2 : Offset)
    (hsplit : (splitO src.data).drop 1 = [c1, c2])
    (h1 : parser (splitChar '\n' c1) (0, 0, 0) = .ok (m1, off1))
    (hcover : off1 = (m1.positions.length, m1.uvs.length, m1.normals.length))
    (h2 : parser (splitChar '\n' c2) (0, 0, 0) = .ok (m2raw, off2))
    (hraw : ∀ f ∈ m2raw.faces,
      m1.positions.length < f.1 ∧ f.1 ≤ m1.positions.length + m2raw.positions.length ∧
      m1.uvs.length < f.2.1 ∧ f.2.1 ≤ m1.uvs.length + m2raw.uvs.length ∧
      m1.normals.length < f.2.2 ∧ f.2.2 ≤ m1.normals.length + m2raw.normals.length) :
    ∃ m2, parse_obj src = .ok [m1, m2] ∧
      m2.positions = m2raw.positions ∧ m2.uvs = m2raw.uvs ∧ m2.normals = m2raw.normals ∧
      ∀ f ∈ m2.faces, 1 ≤ f.1 ∧ f.1 ≤ m2.positions.length ∧ 1 ≤ f.2.1 ∧
        f.2.1 ≤ m2.uvs.length ∧ 1 ≤ f.2.2 ∧ f.2.2 ≤ m2.normals.length := by
  have hb := parser_faces_lt _ _ _ _ h2
  have htr := parser_offset (splitChar '\n' c2) off1
  rw [h2] at htr
  simp only [PRmap] at htr
  refine ⟨(applyOff off1 (m2raw, off2)).1, ?_, by simp [applyOff], by simp [applyOff],
    by simp [applyOff], ?_⟩
  · simp only [parse_obj, hsplit, parseChunks, h1, htr]
  · intro f hf
    simp only [applyOff, offsetFaces, List.mem_map] at hf
    obtain ⟨g, hg, rfl⟩ := hf
    obtain ⟨hp1, hp2, hu1, hu2, hn1, hn2⟩ := hraw g hg
    obtain ⟨hb1, hb2, hb3⟩ := hb g hg
    have e1 : off1.1 = m1.positions.length := by rw [hcover]
    have e2 : off1.2.1 = m1.uvs.length := by rw [hcover]
    have e3 : off1.2.2 = m1.normals.length := by rw [hcover]
    simp only [applyOff]
    rw [e1, e2, e3, wrapSub_eq_sub (le_of_lt hp1) hb1, wrapSub_eq_sub (le_of_lt hu1) hb2,
      wrapSub_eq_sub (le_of_lt hn1) hb3]
    refine ⟨by omega, by simpa using by omega, by omega, by simpa using by omega,
      by omega, by simpa using by omega⟩

/-- Witness for C1 (amended): a two-object input where object 1's single
face covers its one-vertex buffers. -/
theorem C1_offset_correction_amended_witness :
    ∃ m2, parse_obj
        ("o A\nv 0 0 0\nvt 0 0\nvn 0 0 1\nf 1/1/1\no B\nv 1 1 1\nvt 1 1\nvn 1 0 0\nf 2/2/2\n") =
        .ok [⟨[(⟨0, 0⟩, ⟨0, 0⟩, ⟨0, 0⟩)], [(⟨0, 0⟩, ⟨0, 0⟩, ⟨1, 0⟩)], [(⟨0, 0⟩, ⟨0, 0⟩)], [],
              [(1, 1, 1)]⟩, m2] ∧
      m2.positions = [(⟨1, 0⟩, ⟨1, 0⟩, ⟨1, 0⟩)] ∧ m2.uvs = [(⟨1, 0⟩, ⟨1, 0⟩)] ∧
      m2.normals = [(⟨1, 0⟩, ⟨0, 0⟩, ⟨0, 0⟩)] ∧
      ∀ f ∈ m2.faces, 1 ≤ f.1 ∧ f.1 ≤ m2.positions.length ∧ 1 ≤ f.2.1 ∧
        f.2.1 ≤ m2.uvs.length ∧ 1 ≤ f.2.2 ∧ f.2.2 ≤ m2.normals.length :=
  C1_offset_correction_amended _
    (("A\nv 0 0 0\nvt 0 0\nvn 0 0 1\nf 1/1/1\n").data)
    (("B\nv 1 1 1\nvt 1 1\nvn 1 0 0\nf 2/2/2\n").data)
    ⟨[(⟨0, 0⟩, ⟨0, 0⟩, ⟨0, 0⟩)], [(⟨0, 0⟩, ⟨0, 0⟩, ⟨1, 0⟩)], [(⟨0, 0⟩, ⟨0, 0⟩)], [], [(1, 1, 1)]⟩
    ⟨[(⟨1, 0⟩, ⟨1, 0⟩, ⟨1, 0⟩)], [(⟨1, 0⟩, ⟨0, 0⟩, ⟨0, 0⟩)], [(⟨1, 0⟩, ⟨1, 0⟩)], [], [(2, 2, 2)]⟩
    (1, 1, 1) (2, 2, 2) (by decide) (by decide) (by decide) (by decide) (by decide)

/-! Claim C8 (amended): totality and panic-freedom under `srcOK`. -/

theorem processFaceToken_ne_abort (index_offset : Offset) (st : MeshOBJ × Offset)
    (tok : List Char) : processFaceToken index_offset st tok ≠ .abort := by
  unfold processFaceToken
  split
  · simp
  · split <;> simp

theorem processFaceTokens_ne_abort (index_offset : Offset) :
    ∀ (toks : List (List Char)) (st : MeshOBJ × Offset),
      processFaceTokens index_offset st toks ≠ .abort
  | [], st => by simp [processFaceTokens]
  | tok :: rest, st => by
    unfold processFaceTokens
    split
    · rename_i heq
      exact absurd heq (processFaceToken_ne_abort _ _ _)
    · simp
    · exact processFaceTokens_ne_abort index_offset rest _

theorem parseLine_ne_abort (index_offset : Offset) (st : MeshOBJ × Offset) (line : List Char)
    (h : lineOK line = true) : parseLine index_offset st line ≠ .abort := by
  intro habs
  unfold parseLine at habs
  split at habs
  · simp at habs
  · rename_i h1
    split at habs
    · simp at habs
    · rename_i h2
      split at habs
      · rename_i hsw
        rw [Bool.not_eq_true] at h1 h2
        unfold lineOK at h
        rw [h1, h2, hsw] at h
        simp at h
      · split at habs
        · split at habs
          · simp at habs
          · split at habs <;> simp at habs
        · split at habs
          · split at habs
            · simp at habs
            · split at habs <;> simp at habs
          · split at habs
            · split at habs
              · simp at habs
              · split at habs <;> simp at habs
            · split at habs
              · exact absurd habs (processFaceTokens_ne_abort _ _ _)
              · simp at habs

theorem parserGo_ne_abort (index_offset : Offset) :
    ∀ (lines : List (List Char)) (st : MeshOBJ × Offset),
      (∀ l ∈ lines, lineOK l = true) → parserGo index_offset lines st ≠ .abort
  | [], st, _ => by simp [parserGo]
  | line :: rest, st, h => by
    unfold parserGo
    split
    · rename_i heq
      exact absurd heq (parseLine_ne_abort _ _ _ (h line (by simp)))
    · simp
    · exact parserGo_ne_abort index_offset rest _ (fun l hl => h l (by simp [hl]))

theorem parseChunks_ne_abort :
    ∀ (chunks : List (List Char)) (off : Offset),
      (∀ c ∈ chunks, chunkOK c = true) → parseChunks chunks off ≠ .abort
  | [], off, _ => by simp [parseChunks]
  | chunk :: rest, off, h => by
    unfold parseChunks
    split
    · rename_i heq
      have hc := h chunk (by simp)
      unfold chunkOK at hc
      rw [List.all_eq_true] at hc
      exact absurd heq (parserGo_ne_abort _ _ _ hc)
    · simp
    · rename_i obj nextOff heq
      split
      · rename_i heq2
        exact absurd heq2 (parseChunks_ne_abort rest nextOff (fun c hc => h c (by simp [hc])))
      · simp
      · simp

/-- C8 (amended): `parse_obj` terminates on every input, and whenever every
line of every object chunk is empty, contains `#`, or has at least one
whitespace-separated token (the `srcOK` condition, with whitespace the
Unicode `White_Space` class of Rust's `char::is_whitespace`), it returns an
ordered sequence of MeshOBJ or a structured error — never a panic.
Unrestricted, the claim fails: on a whitespace-only line `symbols[0]`
indexes an empty token vector (a panic), and a raw face index below the
incoming offset underflows the `u32` subtraction (wrapping modulo `2 ^ 32`
in a release build); see the counterexample. -/
theorem C8_totality_amended (src : String) (h : srcOK src = true) :
    parse_obj src ≠ .abort := by
  unfold parse_obj
  unfold srcOK at h
  rw [List.all_eq_true] at h
  exact parseChunks_ne_abort _ _ h

/-- Witness for C8 (amended). -/
theorem C8_totality_amended_witness :
    srcOK ("o A\nv 1 2 3\n") = true ∧ parse_obj ("o A\nv 1 2 3\n") ≠ .abort :=
  ⟨by decide, C8_totality_amended ("o A\nv 1 2 3\n") (by decide)⟩

/-! Claim C3 (amended): serialize/re-parse round trip for face-free meshes.
First: characters and values of formatted numbers. -/

theorem digitChar_mem_numChars {d : Nat} (h : d < 10) : digitChar d ∈ numChars := by
  interval_cases d <;> decide

theorem digitChar_isDigit {d : Nat} (h : d < 10) : (digitChar d).isDigit = true := by
  interval_cases d <;> decide

theorem digitVal_digitChar {d : Nat} (h : d < 10) : digitVal (digitChar d) = d := by
  interval_cases d <;> decide

theorem isDigit_props {c : Char} (h : c.isDigit = true) :
    rustWhitespace c = false ∧ c ≠ '\n' ∧ c ≠ COMMENT ∧ c ≠ 'o' ∧ c ≠ 'e' ∧ c ≠ 'E' ∧
    c ≠ '+' ∧ c ≠ '-' ∧ c ≠ '.' := by
  refine ⟨?_, ?_, ?_, ?_, ?_, ?_, ?_, ?_, ?_⟩
  · by_contra hw
    rw [Bool.not_eq_false] at hw
    have hm : c ∈ rustWhitespaceChars := by simpa [rustWhitespace] using hw
    fin_cases hm <;> exact absurd h (by decide)
  · rintro rfl
    exact absurd h (by decide)
  · rintro rfl
    exact absurd h (by decide)
  · rintro rfl
    exact absurd h (by decide)
  · rintro rfl
    exact absurd h (by decide)
  · rintro rfl
    exact absurd h (by decide)
  · rintro rfl
    exact absurd h (by decide)
  · rintro rfl
    exact absurd h (by decide)
  · rintro rfl
    exact absurd h (by decide)

theorem natVal_append (l : List Char) (c : Char) :
    natVal (l ++ [c]) = natVal l * 10 + digitVal c := by
  unfold natVal
  rw [List.foldl_append]
  rfl

theorem natDigitsGo_spec : ∀ (fuel n : Nat), n < fuel →
    natVal (natDigitsGo fuel n) = n ∧ (∀ c ∈ natDigitsGo fuel n, c.isDigit = true ∧ c ∈ numChars) ∧
    natDigitsGo fuel n ≠ []
  | 0, n, h => absurd h (by omega)
  | fuel + 1, n, h => by
    unfold natDigitsGo
    split
    · rename_i h10
      refine ⟨?_, ?_, by simp⟩
      · have h1 : natVal [digitChar n] = 0 * 10 + digitVal (digitChar n) := rfl
        rw [h1, digitVal_digitChar h10]
        omega
      · intro c hc
        simp only [List.mem_singleton] at hc
        subst hc
        exact ⟨digitChar_isDigit h10, digitChar_mem_numChars h10⟩
    · rename_i h10
      have hlt : n / 10 < fuel := by omega
      obtain ⟨ih1, ih2, ih3⟩ := natDigitsGo_spec fuel (n / 10) hlt
      refine ⟨?_, ?_, by simp [ih3]⟩
      · rw [natVal_append, ih1, digitVal_digitChar (by omega)]
        omega
      · intro c hc
        rcases List.mem_append.mp hc with hc | hc
        · exact ih2 c hc
        · simp only [List.mem_singleton] at hc
          subst hc
          exact ⟨digitChar_isDigit (by omega), digitChar_mem_numChars (by omega)⟩

theorem natToChars_spec (n : Nat) :
    natVal (natToChars n) = n ∧ (∀ c ∈ natToChars n, c.isDigit = true ∧ c ∈ numChars) ∧
    natToChars n ≠ [] :=
  natDigitsGo_spec (n + 1) n (by omega)

theorem numChars_props {c : Char} (h : c ∈ numChars) :
    rustWhitespace c = false ∧ c ≠ '\n' ∧ c ≠ COMMENT ∧ c ≠ 'o' ∧ c ≠ 'e' ∧ c ≠ 'E' := by
  fin_cases h <;> refine ⟨by decide, by decide, by decide, by decide, by decide, by decide⟩

theorem fmtCore3_eq (x : Dec) :
    fmtCore3 x = (if round3D x < 0 then ['-'] else []) ++
      natToChars ((round3D x).natAbs / 1000) ++
      '.' :: [digitChar ((round3D x).natAbs / 100 % 10), digitChar ((round3D x).natAbs / 10 % 10),
        digitChar ((round3D x).natAbs % 10)] := rfl

theorem fmtCore3_chars {x : Dec} {c : Char} (h : c ∈ fmtCore3 x) : c ∈ numChars := by
  rw [fmtCore3_eq] at h
  rcases List.mem_append.mp h with h1 | h2
  · rcases List.mem_append.mp h1 with hs | hd
    · split at hs
      · simp only [List.mem_singleton] at hs
        subst hs
        decide
      · simp at hs
    · exact ((natToChars_spec _).2.1 c hd).2
  · simp only [List.mem_cons, List.not_mem_nil, or_false] at h2
    rcases h2 with rfl | rfl | rfl | rfl
    · decide
    · exact digitChar_mem_numChars (by omega)
    · exact digitChar_mem_numChars (by omega)
    · exact digitChar_mem_numChars (by omega)

theorem fmtCore3_ne (x : Dec) : fmtCore3 x ≠ [] := by
  rw [fmtCore3_eq]
  simp

theorem splitExp_no : ∀ (l : List Char), (∀ c ∈ l, c ≠ 'e' ∧ c ≠ 'E') → splitExp l = (l, none)
  | [], _ => rfl
  | c :: rest, h => by
    have hc := h c (by simp)
    have ih := splitExp_no rest (fun d hd => h d (by simp [hd]))
    unfold splitExp
    rw [if_neg (by tauto), ih]

theorem splitChar_not_mem {sep : Char} : ∀ (l : List Char), sep ∉ l → splitChar sep l = [l]
  | [], _ => rfl
  | c :: rest, h => by
    have h1 : ¬sep = c ∧ sep ∉ rest := by simpa using h
    simp only [splitChar]
    rw [if_neg (fun hc => h1.1 hc.symm), splitChar_not_mem rest h1.2]

theorem splitChar_append {sep : Char} : ∀ (a b : List Char), sep ∉ a →
    splitChar sep (a ++ sep :: b) = a :: splitChar sep b
  | [], b, _ => by
    simp only [List.nil_append, splitChar]
    simp
  | c :: a, b, h => by
    have h1 : ¬sep = c ∧ sep ∉ a := by simpa using h
    simp only [List.cons_append, splitChar, List.append_eq]
    rw [if_neg (fun hc => h1.1 hc.symm), splitChar_append a b h1.2]

theorem splitWsGo_token : ∀ (tok l acc : List Char), (∀ c ∈ tok, rustWhitespace c = false) →
    splitWsGo (tok ++ l) acc = splitWsGo l (tok.reverse ++ acc)
  | [], l, acc, _ => by simp
  | c :: tok, l, acc, h => by
    have hc := h c (by simp)
    simp only [List.cons_append, splitWsGo, hc, Bool.false_eq_true, if_false, List.append_eq]
    rw [splitWsGo_token tok l (c :: acc) (fun d hd => h d (by simp [hd]))]
    simp

theorem splitWs_pad : ∀ (k : Nat) (l : List Char),
    splitWsGo (List.replicate k ' ' ++ l) [] = splitWsGo l []
  | 0, l => rfl
  | k + 1, l => by
    simp only [List.replicate_succ, List.cons_append, splitWsGo]
    rw [if_pos (by decide), if_pos (by decide)]
    exact splitWs_pad k l

theorem splitWsGo_sep (tok l : List Char) (hne : tok ≠ [])
    (hnw : ∀ c ∈ tok, rustWhitespace c = false) :
    splitWsGo (tok ++ ' ' :: l) [] = tok :: splitWsGo l [] := by
  rw [splitWsGo_token tok (' ' :: l) [] hnw]
  have hie : (tok.reverse ++ ([] : List Char)).isEmpty = false := by
    simp [List.isEmpty_iff, hne]
  simp only [splitWsGo]
  rw [if_pos (by decide), if_neg (by simp [List.isEmpty_iff, hne]), List.append_nil,
    List.reverse_reverse]

theorem splitWsGo_single (tok : List Char) (hne : tok ≠ [])
    (hnw : ∀ c ∈ tok, rustWhitespace c = false) :
    splitWsGo tok [] = [tok] := by
  have h := splitWsGo_token tok [] [] hnw
  rw [List.append_nil] at h
  rw [h]
  simp only [splitWsGo]
  rw [if_neg (by simp [List.isEmpty_iff, hne])]
  simp

theorem parseF32_not_sign {c : Char} (t : List Char) (h1 : c ≠ '+') (h2 : c ≠ '-') :
    parseF32 (c :: t) = parseF32Pos (c :: t) := by
  unfold parseF32
  split
  · rename_i rest heq
    injection heq with hh ht
    exact absurd hh h1
  · rename_i rest heq
    injection heq with hh ht
    exact absurd hh h2
  · rfl

theorem parseMantissa_pair (ip fp : List Char) (hdot1 : '.' ∉ ip) (hdot2 : '.' ∉ fp)
    (h1 : allDigits ip = true) (h2 : allDigits fp = true) (hne : ip ≠ []) :
    parseMantissa (ip ++ '.' :: fp) =
      some (natVal ip * 10 ^ fp.length + natVal fp, fp.length) := by
  unfold parseMantissa
  rw [splitChar_append ip fp hdot1, splitChar_not_mem fp hdot2]
  simp [h1, h2, hne]

theorem parseF32Pos_digits (a : Nat) :
    parseF32Pos (natToChars (a / 1000) ++
      '.' :: [digitChar (a / 100 % 10), digitChar (a / 10 % 10), digitChar (a % 10)]) =
      some ⟨(a : ℤ), 3⟩ := by
  obtain ⟨hval, hdig, hne⟩ := natToChars_spec (a / 1000)
  set ip := natToChars (a / 1000) with hip
  set fp := [digitChar (a / 100 % 10), digitChar (a / 10 % 10), digitChar (a % 10)] with hfp
  have hfpdig : ∀ c ∈ fp, c.isDigit = true := by
    intro c hc
    rw [hfp] at hc
    simp only [List.mem_cons, List.not_mem_nil, or_false] at hc
    rcases hc with rfl | rfl | rfl
    · exact digitChar_isDigit (by omega)
    · exact digitChar_isDigit (by omega)
    · exact digitChar_isDigit (by omega)
  have hnoe : ∀ c ∈ ip ++ '.' :: fp, c ≠ 'e' ∧ c ≠ 'E' := by
    intro c hc
    rcases List.mem_append.mp hc with hc | hc
    · have hp := isDigit_props (hdig c hc).1
      exact ⟨hp.2.2.2.2.1, hp.2.2.2.2.2.1⟩
    · rcases List.mem_cons.mp hc with rfl | hc
      · exact ⟨by decide, by decide⟩
      · have hp := isDigit_props (hfpdig c hc)
        exact ⟨hp.2.2.2.2.1, hp.2.2.2.2.2.1⟩
  have hdotip : '.' ∉ ip := fun hmem => (isDigit_props (hdig '.' hmem).1).2.2.2.2.2.2.2.2 rfl
  have hdotfp : '.' ∉ fp := fun hmem => (isDigit_props (hfpdig '.' hmem)).2.2.2.2.2.2.2.2 rfl
  have hokip : allDigits ip = true := by
    rw [allDigits, List.all_eq_true]
    intro c hc
    exact (hdig c hc).1
  have hokfp : allDigits fp = true := by
    rw [allDigits, List.all_eq_true]
    exact hfpdig
  have hman := parseMantissa_pair ip fp hdotip hdotfp hokip hokfp hne
  have hfpval : natVal fp = a % 1000 := by
    have h0 : natVal fp = ((0 * 10 + digitVal (digitChar (a / 100 % 10))) * 10 +
        digitVal (digitChar (a / 10 % 10))) * 10 + digitVal (digitChar (a % 10)) := rfl
    rw [h0, digitVal_digitChar (by omega), digitVal_digitChar (by omega),
      digitVal_digitChar (by omega)]
    omega
  have hfl : fp.length = 3 := rfl
  simp only [parseF32Pos, splitExp_no _ hnoe, hman, parseExpPart, hval, hfpval, hfl]
  show some (applyExp (a / 1000 * 10 ^ 3 + a % 1000, 3) 0) = some ⟨(a : ℤ), 3⟩
  have happ : applyExp (a / 1000 * 10 ^ 3 + a % 1000, 3) 0 =
      ⟨((a / 1000 * 10 ^ 3 + a % 1000 : ℕ) : ℤ), 3⟩ := rfl
  rw [happ]
  congr 1
  have hsum : a / 1000 * 10 ^ 3 + a % 1000 = a := by omega
  rw [hsum]

theorem parseF32_fmtCore3 (x : Dec) : parseF32 (fmtCore3 x) = some (r3D x) := by
  rw [fmtCore3_eq]
  by_cases hneg : round3D x < 0
  · rw [if_pos hneg]
    have hsh : (['-'] ++ natToChars ((round3D x).natAbs / 1000) ++
        '.' :: [digitChar ((round3D x).natAbs / 100 % 10),
          digitChar ((round3D x).natAbs / 10 % 10), digitChar ((round3D x).natAbs % 10)]) =
        '-' :: (natToChars ((round3D x).natAbs / 1000) ++
        '.' :: [digitChar ((round3D x).natAbs / 100 % 10),
          digitChar ((round3D x).natAbs / 10 % 10), digitChar ((round3D x).natAbs % 10)]) := by
      simp
    rw [hsh]
    have hstep : parseF32 ('-' :: (natToChars ((round3D x).natAbs / 1000) ++
        '.' :: [digitChar ((round3D x).natAbs / 100 % 10),
          digitChar ((round3D x).natAbs / 10 % 10), digitChar ((round3D x).natAbs % 10)])) =
        (parseF32Pos (natToChars ((round3D x).natAbs / 1000) ++
        '.' :: [digitChar ((round3D x).natAbs / 100 % 10),
          digitChar ((round3D x).natAbs / 10 % 10),
          digitChar ((round3D x).natAbs % 10)])).map Dec.neg := rfl
    rw [hstep, parseF32Pos_digits]
    simp only [Option.map_some', Dec.neg, r3D, Option.some.injEq, Dec.mk.injEq]
    refine ⟨by omega, by trivial⟩
  · rw [if_neg hneg]
    simp only [List.nil_append]
    obtain ⟨hval, hdig, hne⟩ := natToChars_spec ((round3D x).natAbs / 1000)
    rcases hl : natToChars ((round3D x).natAbs / 1000) with _ | ⟨c, cs⟩
    · exact absurd hl hne
    · have hcdig := (hdig c (by rw [hl]; simp)).1
      have hprops := isDigit_props hcdig
      rw [List.cons_append]
      rw [parseF32_not_sign _ hprops.2.2.2.2.2.2.1 hprops.2.2.2.2.2.2.2.1]
      rw [← List.cons_append, ← hl, parseF32Pos_digits]
      simp only [r3D, Option.some.injEq, Dec.mk.injEq]
      refine ⟨by omega, by trivial⟩

theorem fmtCore3_not_ws (x : Dec) : ∀ c ∈ fmtCore3 x, rustWhitespace c = false :=
  fun _ h => (numChars_props (fmtCore3_chars h)).1

theorem fmtF73_chars {x : Dec} {c : Char} (h : c ∈ fmtF73 x) :
    c ≠ '\n' ∧ c ≠ COMMENT ∧ c ≠ 'o' := by
  unfold fmtF73 padTo at h
  rcases List.mem_append.mp h with h | h
  · have hc := List.eq_of_mem_replicate h
    subst hc
    exact ⟨by decide, by decide, by decide⟩
  · have hp := numChars_props (fmtCore3_chars h)
    exact ⟨hp.2.1, hp.2.2.1, hp.2.2.2.1⟩

theorem splitWs_fmtF73_sep (x : Dec) (l : List Char) :
    splitWsGo (fmtF73 x ++ ' ' :: l) [] = fmtCore3 x :: splitWsGo l [] := by
  unfold fmtF73 padTo
  rw [List.append_assoc, splitWs_pad, splitWsGo_sep _ _ (fmtCore3_ne x) (fmtCore3_not_ws x)]

theorem splitWs_fmtF73_last (x : Dec) : splitWsGo (fmtF73 x) [] = [fmtCore3 x] := by
  unfold fmtF73 padTo
  rw [splitWs_pad, splitWsGo_single _ (fmtCore3_ne x) (fmtCore3_not_ws x)]

theorem splitWs_lineOf3 (kind : List Char) (p : Dec × Dec × Dec) (hk : kind ≠ [])
    (hknw : ∀ c ∈ kind, rustWhitespace c = false) :
    splitWhitespace (lineOf3 kind p) = [kind, fmtCore3 p.1, fmtCore3 p.2.1, fmtCore3 p.2.2] := by
  unfold splitWhitespace lineOf3
  rw [splitWsGo_sep kind _ hk hknw, splitWs_fmtF73_sep, splitWs_fmtF73_sep, splitWs_fmtF73_last]

theorem splitWs_lineOf2 (p : Dec × Dec) :
    splitWhitespace (lineOf2 p) = [UV, fmtCore3 p.1, fmtCore3 p.2] := by
  unfold splitWhitespace lineOf2
  have hsh : ('v' :: 't' :: ' ' :: (fmtF73 p.1 ++ (' ' :: (fmtF73 p.2 ++ (' ' :: []))))) =
      (['v', 't'] ++ ' ' :: (fmtF73 p.1 ++ (' ' :: (fmtF73 p.2 ++ (' ' :: []))))) := by simp
  rw [hsh, splitWsGo_sep ['v', 't'] _ (by decide) (by decide), splitWs_fmtF73_sep,
    splitWs_fmtF73_sep]
  rfl

theorem lineOf3_chars (kind : List Char) (p : Dec × Dec × Dec) {c : Char}
    (h : c ∈ lineOf3 kind p) : c ∈ kind ∨ (c ≠ '\n' ∧ c ≠ COMMENT ∧ c ≠ 'o') := by
  unfold lineOf3 at h
  rcases List.mem_append.mp h with h | h
  · exact Or.inl h
  · rcases List.mem_cons.mp h with rfl | h
    · exact Or.inr ⟨by decide, by decide, by decide⟩
    · rcases List.mem_append.mp h with h | h
      · exact Or.inr (fmtF73_chars h)
      · rcases List.mem_cons.mp h with rfl | h
        · exact Or.inr ⟨by decide, by decide, by decide⟩
        · rcases List.mem_append.mp h with h | h
          · exact Or.inr (fmtF73_chars h)
          · rcases List.mem_cons.mp h with rfl | h
            · exact Or.inr ⟨by decide, by decide, by decide⟩
            · exact Or.inr (fmtF73_chars h)

theorem lineOf2_chars (p : Dec × Dec) {c : Char} (h : c ∈ lineOf2 p) :
    c ∈ UV ∨ (c ≠ '\n' ∧ c ≠ COMMENT ∧ c ≠ 'o') := by
  unfold lineOf2 at h
  rcases List.mem_cons.mp h with rfl | h
  · exact Or.inl (by decide)
  rcases List.mem_cons.mp h with rfl | h
  · exact Or.inl (by decide)
  rcases List.mem_cons.mp h with rfl | h
  · exact Or.inr ⟨by decide, by decide, by decide⟩
  rcases List.mem_append.mp h with h | h
  · exact Or.inr (fmtF73_chars h)
  rcases List.mem_cons.mp h with rfl | h
  · exact Or.inr ⟨by decide, by decide, by decide⟩
  rcases List.mem_append.mp h with h | h
  · exact Or.inr (fmtF73_chars h)
  rcases List.mem_cons.mp h with rfl | h
  · exact Or.inr ⟨by decide, by decide, by decide⟩
  simp at h

theorem lineOf3_ne_nil (kind : List Char) (p : Dec × Dec × Dec) (hk : kind ≠ []) :
    (lineOf3 kind p).isEmpty = false := by
  unfold lineOf3
  rcases kind with _ | ⟨c, t⟩
  · exact absurd rfl hk
  · rfl

theorem comment_not_lineOf3 (kind : List Char) (p : Dec × Dec × Dec)
    (hkind : COMMENT ∉ kind) : COMMENT ∉ lineOf3 kind p := by
  intro hmem
  rcases lineOf3_chars kind p hmem with h | h
  · exact hkind h
  · exact h.2.1 rfl

theorem contains_eq_false_of_not_mem {l : List Char} {a : Char} (h : a ∉ l) :
    l.contains a = false :=
  Bool.eq_false_iff.mpr (fun hcon => h (by simpa using hcon))

theorem parse_floats_cores3 (k : List Char) (p : Dec × Dec × Dec) :
    parse_floats [k, fmtCore3 p.1, fmtCore3 p.2.1, fmtCore3 p.2.2] =
      .ok [r3D p.1, r3D p.2.1, r3D p.2.2] := by
  unfold parse_floats
  simp [parseFloatList, parseF32_fmtCore3]

theorem parse_floats_cores2 (k : List Char) (p : Dec × Dec) :
    parse_floats [k, fmtCore3 p.1, fmtCore3 p.2] = .ok [r3D p.1, r3D p.2] := by
  unfold parse_floats
  simp [parseFloatList, parseF32_fmtCore3]

theorem parseLine_v (index_offset : Offset) (mesh : MeshOBJ) (nxt : Offset)
    (p : Dec × Dec × Dec) :
    parseLine index_offset (mesh, nxt) (lineOf3 POSITION p) =
      .ok ({ mesh with positions := mesh.positions ++ [r3Triple p] }, nxt) := by
  have hsw := splitWs_lineOf3 POSITION p (by decide) (by decide)
  have hne := lineOf3_ne_nil POSITION p (by decide)
  have hcm := comment_not_lineOf3 POSITION p (by decide)
  have hcc := contains_eq_false_of_not_mem hcm
  have hpf := parse_floats_cores3 POSITION p
  simp [parseLine, hne, hcc, hcm, hsw, hpf, r3Triple]

theorem parseLine_vn (index_offset : Offset) (mesh : MeshOBJ) (nxt : Offset)
    (p : Dec × Dec × Dec) :
    parseLine index_offset (mesh, nxt) (lineOf3 NORMAL p) =
      .ok ({ mesh with normals := mesh.normals ++ [r3Triple p] }, nxt) := by
  have hsw := splitWs_lineOf3 NORMAL p (by decide) (by decide)
  have hne := lineOf3_ne_nil NORMAL p (by decide)
  have hcm := comment_not_lineOf3 NORMAL p (by decide)
  have hcc := contains_eq_false_of_not_mem hcm
  have hpf := parse_floats_cores3 NORMAL p
  simp only [NORMAL] at hsw hne hcc hcm hpf
  simp [parseLine, NORMAL, POSITION, UV, INDEX, hne, hcc, hcm, hsw, hpf, r3Triple]

theorem lineOf2_ne_nil (p : Dec × Dec) : (lineOf2 p).isEmpty = false := rfl

theorem comment_not_lineOf2 (p : Dec × Dec) : COMMENT ∉ lineOf2 p := by
  intro hmem
  rcases lineOf2_chars p hmem with h | h
  · exact absurd h (by decide)
  · exact h.2.1 rfl

theorem parseLine_vt (index_offset : Offset) (mesh : MeshOBJ) (nxt : Offset) (p : Dec × Dec) :
    parseLine index_offset (mesh, nxt) (lineOf2 p) =
      .ok ({ mesh with uvs := mesh.uvs ++ [r3Pair p] }, nxt) := by
  have hsw := splitWs_lineOf2 p
  have hne := lineOf2_ne_nil p
  have hcm := comment_not_lineOf2 p
  have hcc := contains_eq_false_of_not_mem hcm
  have hpf := parse_floats_cores2 UV p
  simp only [UV] at hsw hpf
  simp [parseLine, NORMAL, POSITION, UV, INDEX, hne, hcc, hcm, hsw, hpf, r3Pair]

theorem parseLine_color (index_offset : Offset) (st : MeshOBJ × Offset) (p : Dec × Dec × Dec) :
    parseLine index_offset st (lineOf3 ['c', 'o', 'l', 'o', 'r'] p) = .ok st := by
  have hsw := splitWs_lineOf3 ['c', 'o', 'l', 'o', 'r'] p (by decide) (by decide)
  have hne := lineOf3_ne_nil ['c', 'o', 'l', 'o', 'r'] p (by decide)
  have hcm := comment_not_lineOf3 ['c', 'o', 'l', 'o', 'r'] p (by decide)
  have hcc := contains_eq_false_of_not_mem hcm
  simp [parseLine, hne, hcc, hcm, hsw, NORMAL, POSITION, UV, INDEX]

theorem parseLine_name (index_offset : Offset) (st : MeshOBJ × Offset) :
    parseLine index_offset st ['x'] = .ok st := rfl

theorem parseLine_flast (index_offset : Offset) (st : MeshOBJ × Offset) :
    parseLine index_offset st ['f', ' '] = .ok st := rfl

theorem msg3_cons (kind : List Char) (p : Dec × Dec × Dec) (rest : List (Dec × Dec × Dec)) :
    msg3 kind (p :: rest) = lineOf3 kind p ++ '\n' :: msg3 kind rest := by
  simp [msg3, lineOf3, List.append_assoc]

theorem msg2_cons (p : Dec × Dec) (rest : List (Dec × Dec)) :
    msg2 (p :: rest) = lineOf2 p ++ '\n' :: msg2 rest := by
  simp [msg2, lineOf2, List.append_assoc]

theorem nl_not_lineOf3 (kind : List Char) (p : Dec × Dec × Dec) (hk : '\n' ∉ kind) :
    '\n' ∉ lineOf3 kind p := by
  intro h
  rcases lineOf3_chars kind p h with h | h
  · exact hk h
  · exact h.1 rfl

theorem nl_not_lineOf2 (p : Dec × Dec) : '\n' ∉ lineOf2 p := by
  intro h
  rcases lineOf2_chars p h with h | h
  · exact absurd h (by decide)
  · exact h.1 rfl

theorem splitNl_msg3 (kind : List Char) (hk : '\n' ∉ kind) :
    ∀ (vec : List (Dec × Dec × Dec)) (rest : List Char),
      splitChar '\n' (msg3 kind vec ++ rest) =
        vec.map (lineOf3 kind) ++ splitChar '\n' rest
  | [], rest => by simp [msg3]
  | p :: vec, rest => by
    rw [msg3_cons]
    simp only [List.append_assoc, List.cons_append]
    rw [splitChar_append _ _ (nl_not_lineOf3 kind p hk), splitNl_msg3 kind hk vec rest]
    simp

theorem splitNl_msg2 : ∀ (vec : List (Dec × Dec)) (rest : List Char),
      splitChar '\n' (msg2 vec ++ rest) = vec.map lineOf2 ++ splitChar '\n' rest
  | [], rest => by simp [msg2]
  | p :: vec, rest => by
    rw [msg2_cons]
    simp only [List.append_assoc, List.cons_append]
    rw [splitChar_append _ _ (nl_not_lineOf2 p), splitNl_msg2 vec rest]
    simp

theorem parserGo_cons_ok (index_offset : Offset) (l : List Char) (rest : List (List Char))
    (st st2 : MeshOBJ × Offset) (h : parseLine index_offset st l = .ok st2) :
    parserGo index_offset (l :: rest) st = parserGo index_offset rest st2 := by
  conv_lhs => rw [parserGo]
  rw [h]

theorem parserGo_vsec (index_offset : Offset) :
    ∀ (vec : List (Dec × Dec × Dec)) (lines2 : List (List Char)) (mesh : MeshOBJ)
      (nxt : Offset),
      parserGo index_offset (vec.map (lineOf3 POSITION) ++ lines2) (mesh, nxt) =
        parserGo index_offset lines2
          ({ mesh with positions := mesh.positions ++ vec.map r3Triple }, nxt)
  | [], lines2, mesh, nxt => by simp
  | p :: vec, lines2, mesh, nxt => by
    simp only [List.map_cons, List.cons_append]
    rw [parserGo_cons_ok _ _ _ _ _ (parseLine_v index_offset mesh nxt p)]
    rw [parserGo_vsec index_offset vec lines2 _ nxt]
    simp [List.append_assoc]

theorem parserGo_vnsec (index_offset : Offset) :
    ∀ (vec : List (Dec × Dec × Dec)) (lines2 : List (List Char)) (mesh : MeshOBJ)
      (nxt : Offset),
      parserGo index_offset (vec.map (lineOf3 NORMAL) ++ lines2) (mesh, nxt) =
        parserGo index_offset lines2
          ({ mesh with normals := mesh.normals ++ vec.map r3Triple }, nxt)
  | [], lines2, mesh, nxt => by simp
  | p :: vec, lines2, mesh, nxt => by
    simp only [List.map_cons, List.cons_append]
    rw [parserGo_cons_ok _ _ _ _ _ (parseLine_vn index_offset mesh nxt p)]
    rw [parserGo_vnsec index_offset vec lines2 _ nxt]
    simp [List.append_assoc]

theorem parserGo_vtsec (index_offset : Offset) :
    ∀ (vec : List (Dec × Dec)) (lines2 : List (List Char)) (mesh : MeshOBJ) (nxt : Offset),
      parserGo index_offset (vec.map lineOf2 ++ lines2) (mesh, nxt) =
        parserGo index_offset lines2 ({ mesh with uvs := mesh.uvs ++ vec.map r3Pair }, nxt)
  | [], lines2, mesh, nxt => by simp
  | p :: vec, lines2, mesh, nxt => by
    simp only [List.map_cons, List.cons_append]
    rw [parserGo_cons_ok _ _ _ _ _ (parseLine_vt index_offset mesh nxt p)]
    rw [parserGo_vtsec index_offset vec lines2 _ nxt]
    simp [List.append_assoc]

theorem parserGo_colorsec (index_offset : Offset) :
    ∀ (vec : List (Dec × Dec × Dec)) (lines2 : List (List Char)) (st : MeshOBJ × Offset),
      parserGo index_offset (vec.map (lineOf3 ['c', 'o', 'l', 'o', 'r']) ++ lines2) st =
        parserGo index_offset lines2 st
  | [], lines2, st => by simp
  | p :: vec, lines2, st => by
    simp only [List.map_cons, List.cons_append]
    rw [parserGo_cons_ok _ _ _ _ _ (parseLine_color index_offset st p)]
    exact parserGo_colorsec index_offset vec lines2 st

theorem noOS_iff_chain : ∀ l : List Char, noOS l = true ↔ List.Chain' noPair l
  | [] => by simp [noOS]
  | [c] => by simp [noOS]
  | a :: b :: rest => by
    rw [List.chain'_cons, ← noOS_iff_chain (b :: rest)]
    simp only [noOS, noPair, Bool.and_eq_true, Bool.not_eq_true', Bool.and_eq_false_iff,
      decide_eq_false_iff_not]
    tauto

theorem chain_of_not_mem_o : ∀ l : List Char, 'o' ∉ l → List.Chain' noPair l
  | [], _ => List.chain'_nil
  | [c], _ => List.chain'_singleton c
  | a :: b :: rest, h => by
    have ha : a ≠ 'o' := fun heq => h (heq ▸ List.mem_cons_self a (b :: rest))
    have hrest : 'o' ∉ b :: rest := fun hm => h (List.mem_cons_of_mem a hm)
    rw [List.chain'_cons]
    exact ⟨fun hp => ha hp.1, chain_of_not_mem_o (b :: rest) hrest⟩

theorem chain_append_nl {l1 l2 : List Char} (h1 : List.Chain' noPair l1)
    (h2 : List.Chain' noPair l2) : List.Chain' noPair (l1 ++ '\n' :: l2) := by
  rw [List.chain'_append]
  refine ⟨h1, ?_, ?_⟩
  · rw [List.chain'_cons']
    exact ⟨fun y _ hp => absurd hp.1 (by decide), h2⟩
  · intro x _ y hy
    simp only [List.head?_cons, Option.mem_def, Option.some.injEq] at hy
    subst hy
    exact fun hp => absurd hp.2 (by decide)

theorem o_not_fmtF73 (x : Dec) : 'o' ∉ fmtF73 x := fun h => (fmtF73_chars h).2.2 rfl

theorem chain_lineOf3_no_o (kind : List Char) (p : Dec × Dec × Dec) (hk : 'o' ∉ kind) :
    List.Chain' noPair (lineOf3 kind p) := by
  apply chain_of_not_mem_o
  intro hmem
  rcases lineOf3_chars kind p hmem with h | h
  · exact hk h
  · exact h.2.2 rfl

theorem chain_lineOf2 (p : Dec × Dec) : List.Chain' noPair (lineOf2 p) := by
  apply chain_of_not_mem_o
  intro hmem
  rcases lineOf2_chars p hmem with h | h
  · exact absurd h (by decide)
  · exact h.2.2 rfl

theorem chain_lineOf3_color (p : Dec × Dec × Dec) :
    List.Chain' noPair (lineOf3 ['c', 'o', 'l', 'o', 'r'] p) := by
  unfold lineOf3
  rw [List.chain'_append]
  refine ⟨List.chain'_cons.mpr ⟨by decide, List.chain'_cons.mpr ⟨by decide,
    List.chain'_cons.mpr ⟨by decide, List.chain'_cons.mpr ⟨by decide,
      List.chain'_singleton _⟩⟩⟩⟩, ?_, ?_⟩
  · apply chain_of_not_mem_o
    intro hmem
    simp only [List.mem_cons, List.mem_append] at hmem
    rcases hmem with h | h
    · exact absurd h (by decide)
    rcases h with h | h
    · exact o_not_fmtF73 _ h
    rcases h with h | h
    · exact absurd h (by decide)
    rcases h with h | h
    · exact o_not_fmtF73 _ h
    rcases h with h | h
    · exact absurd h (by decide)
    · exact o_not_fmtF73 _ h
  · intro x hx y _
    simp only [List.getLast?_cons_cons, List.getLast?_singleton, Option.mem_def,
      Option.some.injEq] at hx
    subst hx
    exact fun hp => absurd hp.1 (by decide)

theorem chain_msg3 (kind : List Char)
    (hk : ∀ p, List.Chain' noPair (lineOf3 kind p)) :
    ∀ (vec : List (Dec × Dec × Dec)) (rest : List Char), List.Chain' noPair rest →
      List.Chain' noPair (msg3 kind vec ++ rest)
  | [], rest, hr => by simpa [msg3] using hr
  | p :: vec, rest, hr => by
    rw [msg3_cons, List.append_assoc, List.cons_append]
    exact chain_append_nl (hk p) (chain_msg3 kind hk vec rest hr)

theorem chain_msg2 : ∀ (vec : List (Dec × Dec)) (rest : List Char),
      List.Chain' noPair rest → List.Chain' noPair (msg2 vec ++ rest)
  | [], rest, hr => by simpa [msg2] using hr
  | p :: vec, rest, hr => by
    rw [msg2_cons, List.append_assoc, List.cons_append]
    exact chain_append_nl (chain_lineOf2 p) (chain_msg2 vec rest hr)

theorem chain_body (m : MeshOBJ) (hf : m.faces = []) :
    List.Chain' noPair ('x' :: '\n' :: m.fmt) := by
  have hE : List.Chain' noPair (msg_u32 m.faces) := by
    rw [hf]
    show List.Chain' noPair ['f', ' ']
    exact List.chain'_cons.mpr ⟨by decide, List.chain'_singleton _⟩
  have hD : List.Chain' noPair
      ((if m.colors.isEmpty then [] else msg3 ['c', 'o', 'l', 'o', 'r'] m.colors) ++
        msg_u32 m.faces) := by
    by_cases hc : m.colors.isEmpty
    · simpa [hc] using hE
    · simp only [hc, if_false]
      exact chain_msg3 _ chain_lineOf3_color m.colors _ hE
  have hbody : List.Chain' noPair m.fmt := by
    unfold MeshOBJ.fmt
    simp only [List.append_assoc]
    exact chain_msg3 ['v'] (fun p => chain_lineOf3_no_o ['v'] p (by decide)) m.positions _
      (chain_msg2 m.uvs _
        (chain_msg3 ['v', 'n'] (fun p => chain_lineOf3_no_o ['v', 'n'] p (by decide))
          m.normals _ hD))
  have hx : ('x' :: '\n' :: m.fmt) = ['x'] ++ '\n' :: m.fmt := rfl
  rw [hx]
  exact chain_append_nl (List.chain'_singleton 'x') hbody

theorem noOS_body (m : MeshOBJ) (hf : m.faces = []) :
    noOS ('x' :: '\n' :: m.fmt) = true :=
  (noOS_iff_chain _).mpr (chain_body m hf)

theorem lines_fmt (m : MeshOBJ) (hf : m.faces = []) :
    splitChar '\n' ('x' :: '\n' :: m.fmt) =
      ['x'] :: (m.positions.map (lineOf3 POSITION) ++ (m.uvs.map lineOf2 ++
        (m.normals.map (lineOf3 NORMAL) ++
          ((if m.colors.isEmpty then []
            else m.colors.map (lineOf3 ['c', 'o', 'l', 'o', 'r'])) ++ [['f', ' ']])))) := by
  have h0 : ('x' :: '\n' :: m.fmt) = ['x'] ++ '\n' :: m.fmt := rfl
  rw [h0, splitChar_append ['x'] _ (by decide)]
  unfold MeshOBJ.fmt
  simp only [List.append_assoc]
  rw [hf]
  rw [splitNl_msg3 ['v'] (by decide), splitNl_msg2, splitNl_msg3 ['v', 'n'] (by decide)]
  by_cases hc : m.colors.isEmpty
  · rw [if_pos hc, if_pos hc]
    simp only [List.nil_append]
    rfl
  · rw [if_neg hc, if_neg hc]
    rw [splitNl_msg3 ['c', 'o', 'l', 'o', 'r'] (by decide)]
    rfl

theorem r3D_val_close (y : Dec) : |Dec.val (r3D y) - Dec.val y| ≤ 1 / 2000 := by
  rcases le_or_lt y.d 3 with hd | hd
  · have hz : Dec.val (r3D y) = Dec.val y := by
      unfold Dec.val r3D
      simp only [round3D, if_pos hd]
      have h3 : ((10 : ℚ) ^ (3 - y.d)) * 10 ^ y.d = 10 ^ 3 := by
        rw [← pow_add]
        congr 1
        omega
      push_cast
      rw [div_eq_div_iff (by positivity) (by positivity), mul_assoc, h3]
    rw [hz, sub_self, abs_zero]
    norm_num
  · have hdk : y.d - 3 + 3 = y.d := by omega
    have hround : round3D y = round ((y.m : ℚ) / 10 ^ (y.d - 3)) := by
      rw [round_eq]
      have hcast : (y.m : ℚ) / 10 ^ (y.d - 3) + 1 / 2 =
          ((2 * y.m + ((10 ^ (y.d - 3) : ℕ) : ℤ) : ℤ) : ℚ) /
            ((2 * 10 ^ (y.d - 3) : ℕ) : ℚ) := by
        push_cast
        rw [div_add_div _ _ (by positivity) (by norm_num), div_eq_div_iff (by positivity)
          (by positivity)]
        ring
      rw [hcast, Rat.floor_intCast_div_natCast]
      simp only [round3D, if_neg (not_le.mpr hd)]
      push_cast
      rfl
    have hval1 : Dec.val (r3D y) =
        ((round ((y.m : ℚ) / 10 ^ (y.d - 3)) : ℤ) : ℚ) / 10 ^ 3 := by
      unfold Dec.val r3D
      rw [hround]
    have hval2 : Dec.val y = ((y.m : ℚ) / 10 ^ (y.d - 3)) / 10 ^ 3 := by
      unfold Dec.val
      rw [div_div, ← pow_add, hdk]
    rw [hval1, hval2, div_sub_div_same, abs_div]
    have hb : |((round ((y.m : ℚ) / 10 ^ (y.d - 3)) : ℤ) : ℚ) -
        (y.m : ℚ) / 10 ^ (y.d - 3)| ≤ 1 / 2 := by
      rw [abs_sub_comm]
      exact abs_sub_round _
    have habs : |(10 : ℚ) ^ 3| = 1000 := by norm_num
    rw [habs]
    linarith

theorem parser_fmt (m : MeshOBJ) (hf : m.faces = []) :
    parser (splitChar '\n' ('x' :: '\n' :: m.fmt)) (0, 0, 0) =
      .ok ((⟨m.positions.map r3Triple, m.normals.map r3Triple, m.uvs.map r3Pair, [], []⟩ :
        MeshOBJ), (0, 0, 0)) := by
  rw [lines_fmt m hf]
  unfold parser
  rw [parserGo_cons_ok _ _ _ _ _ (parseLine_name (0, 0, 0) _)]
  rw [parserGo_vsec, parserGo_vtsec, parserGo_vnsec]
  by_cases hc : m.colors.isEmpty
  · rw [if_pos hc]
    simp only [List.nil_append]
    rw [parserGo_cons_ok _ _ _ _ _ (parseLine_flast (0, 0, 0) _)]
    rfl
  · rw [if_neg hc, parserGo_colorsec]
    rw [parserGo_cons_ok _ _ _ _ _ (parseLine_flast (0, 0, 0) _)]
    rfl

/-- C3: serializing a `MeshOBJ` with `Display` and re-parsing the text after
prefixing an object marker does NOT succeed for every mesh (it fails e.g.
on the one-face mesh of the counterexample, whose sub-six-digit face
indices get `\x7b:6\x7d` space padding inside the face token); amended to
face-free meshes: re-parsing succeeds and reproduces every position, uv and
normal component as its 3-decimal rounding, which is within `1/2000` of the
original value. -/
theorem C3_roundtrip_amended (m : MeshOBJ) (hf : m.faces = []) :
    ∃ m2 : MeshOBJ,
      parse_obj ("o x\n" ++ m.toText) = .ok [m2] ∧
      m2.positions = m.positions.map r3Triple ∧
      m2.uvs = m.uvs.map r3Pair ∧
      m2.normals = m.normals.map r3Triple ∧
      ∀ y : Dec, |Dec.val (r3D y) - Dec.val y| ≤ 1 / 2000 := by
  refine ⟨⟨m.positions.map r3Triple, m.normals.map r3Triple, m.uvs.map r3Pair, [], []⟩,
    ?_, rfl, rfl, rfl, r3D_val_close⟩
  have hdata : ("o x\n" ++ m.toText).data = 'o' :: ' ' :: 'x' :: '\n' :: m.fmt := by
    rw [String.data_append]
    rfl
  have hsplit : splitO ('o' :: ' ' :: 'x' :: '\n' :: m.fmt) =
      [[], 'x' :: '\n' :: m.fmt] := by
    have h1 : splitO ('o' :: ' ' :: 'x' :: '\n' :: m.fmt) =
        [] :: splitO ('x' :: '\n' :: m.fmt) := by
      rw [splitO]
      simp
    rw [h1, splitO_eq_self _ (noOS_body m hf)]
  simp only [parse_obj, hdata, hsplit, List.drop_succ_cons, List.drop_zero, parseChunks,
    parser_fmt m hf]

theorem C3_roundtrip_amended_witness :
    (MeshOBJ.mk [(⟨15, 1⟩, ⟨-25, 1⟩, ⟨1, 0⟩)] [(⟨0, 0⟩, ⟨0, 0⟩, ⟨1, 0⟩)]
        [(⟨5, 1⟩, ⟨1, 2⟩)] [] []).faces = [] ∧
    ∃ m2 : MeshOBJ,
      parse_obj ("o x\n" ++ (MeshOBJ.mk [(⟨15, 1⟩, ⟨-25, 1⟩, ⟨1, 0⟩)]
          [(⟨0, 0⟩, ⟨0, 0⟩, ⟨1, 0⟩)] [(⟨5, 1⟩, ⟨1, 2⟩)] [] []).toText) = .ok [m2] ∧
      m2.positions = (MeshOBJ.mk [(⟨15, 1⟩, ⟨-25, 1⟩, ⟨1, 0⟩)] [(⟨0, 0⟩, ⟨0, 0⟩, ⟨1, 0⟩)]
          [(⟨5, 1⟩, ⟨1, 2⟩)] [] []).positions.map r3Triple ∧
      m2.uvs = (MeshOBJ.mk [(⟨15, 1⟩, ⟨-25, 1⟩, ⟨1, 0⟩)] [(⟨0, 0⟩, ⟨0, 0⟩, ⟨1, 0⟩)]
          [(⟨5, 1⟩, ⟨1, 2⟩)] [] []).uvs.map r3Pair ∧
      m2.normals = (MeshOBJ.mk [(⟨15, 1⟩, ⟨-25, 1⟩, ⟨1, 0⟩)] [(⟨0, 0⟩, ⟨0, 0⟩, ⟨1, 0⟩)]
          [(⟨5, 1⟩, ⟨1, 2⟩)] [] []).normals.map r3Triple ∧
      ∀ y : Dec, |Dec.val (r3D y) - Dec.val y| ≤ 1 / 2000 :=
  ⟨rfl, C3_roundtrip_amended (MeshOBJ.mk [(⟨15, 1⟩, ⟨-25, 1⟩, ⟨1, 0⟩)]
    [(⟨0, 0⟩, ⟨0, 0⟩, ⟨1, 0⟩)] [(⟨5, 1⟩, ⟨1, 2⟩)] [] []) rfl⟩
